import Mathlib

/-!
# Verification of the minesweeper core (`src/main.py`)

A shallow embedding of the board model, the reveal algorithm (`do_move`),
mine placement (`make_board`) and the query surface of the Python source,
together with theorems settling the specification claims.

Conventions of the embedding:
* Python `int` becomes `Int`; loop counters that start at 0 and only grow
  become `Nat` where noted.
* Python list indexing `l[i]` (which wraps negative indices in
  `[-len, -1]` and raises `IndexError` otherwise) becomes `pyGet`,
  returning `none` exactly when Python would raise.
* In-place mutation of `Block` objects becomes functional update of the
  grid (`pySet`): the source only ever mutates a block it just fetched.
* `random.randint(0, k)` becomes reading from an explicit stream of
  sample pairs, reduced modulo the range size; the distribution is
  irrelevant to every claim, only that samples are in range.
* The unbounded `while` loop of mine placement and the recursion of
  `do_move` take explicit fuel; running out of fuel is reported by a
  dedicated result constructor, distinct from an index error.
-/

/-- Python list-index resolution: `some j` with `j` the physical index when
`i` is a valid (possibly negative, wrapping) index of a list of length
`len`, `none` when Python would raise `IndexError`. -/
def pyResolve (len : Nat) (i : Int) : Option Nat :=
  if 0 ≤ i then (if i < (len : Int) then some i.toNat else none)
  else if 0 ≤ i + (len : Int) then some (i + (len : Int)).toNat else none

/-- Python `l[i]` for reading. -/
def pyGet {α : Type} (l : List α) (i : Int) : Option α :=
  (pyResolve l.length i).bind l.get?

/-- Python `l[i] = a` (the source only assigns at indices it has just read
successfully, so the `none` branch is never exercised). -/
def pySet {α : Type} (l : List α) (i : Int) (a : α) : List α :=
  match pyResolve l.length i with
  | some j => l.set j a
  | none => l

/-- `grid[y][x]` for reading. -/
def pyGet2 {α : Type} (g : List (List α)) (y x : Int) : Option α :=
  (pyGet g y).bind (fun row => pyGet row x)

/-- Update of `grid[y][x]`. -/
def pySet2 {α : Type} (g : List (List α)) (y x : Int) (a : α) : List (List α) :=
  match pyGet g y with
  | some row => pySet g y (pySet row x a)
  | none => g

/-- `MoveResult` enum of the source. -/
inductive MoveResult where
  | FOUND_MINE
  | ALL_OK
deriving DecidableEq, Repr

/-- `BlockType` enum of the source. -/
inductive BlockType where
  | MINE
  | NORMAL
deriving DecidableEq, Repr

/-- A `Block`: its type and its visibility (the source's two-valued
`BlockVisibility` flag, `true` = VISIBLE). Freshly constructed blocks are
invisible. -/
structure Block where
  type_ : BlockType
  visible : Bool
deriving DecidableEq, Repr

def Block.is_mine (b : Block) : Bool := b.type_ == BlockType.MINE

def Block.is_normal (b : Block) : Bool := b.type_ == BlockType.NORMAL

def Block.is_visible (b : Block) : Bool := b.visible

def Block.is_invisible (b : Block) : Bool := !b.visible

def Block.make_visible (b : Block) : Block := { b with visible := true }

/-- Block representation constants of the source. -/
def MINE_REPR : String := "#"

def NO_SURROUNDING_MINES : String := "·"

def UNKNOWN_BLOCK : String := " "

abbrev Grid := List (List Block)

/-- The 3×3 window the source's two nested `range(v - 1, v + 2)` loops
visit, in their row-major order (`y` outer, `x` inner); pairs are
`(y, x)`.  Note the window includes the center `(y, x)` itself. -/
def nbhd (y x : Int) : List (Int × Int) :=
  [(y - 1, x - 1), (y - 1, x), (y - 1, x + 1),
   (y, x - 1), (y, x), (y, x + 1),
   (y + 1, x - 1), (y + 1, x), (y + 1, x + 1)]

/-- The `Board` class: as in the source, `width` and `height` store
`board_width - 1` and `board_height - 1`. -/
structure Board where
  width : Int
  height : Int
  number_of_mines : Int
  unseen_blocks : Int
  board : Grid
deriving DecidableEq, Repr

/-- Result of `make_board`: a grid, a raised Python exception
(`ValueError` from `randint` on an empty range, the only reachable one),
or exhaustion of the fuel bounding the unbounded sampling loop. -/
inductive MkRes where
  | ok (g : Grid)
  | raised
  | outOfFuel
deriving DecidableEq, Repr

/-- The mine-placement `while` loop of `Board.make_board`: while
`n < number_of_mines`, sample a cell; if it is already a mine, resample,
otherwise replace it by a mine and increment `n`. `idx` indexes the
sample stream, one pair per iteration. -/
def placeBombs (board_width board_height number_of_mines : Int)
    (stream : Nat → Nat × Nat) :
    Nat → Nat → Nat → Grid → MkRes
  | 0, _, n, g => if (n : Int) < number_of_mines then .outOfFuel else .ok g
  | fuel + 1, idx, n, g =>
    if (n : Int) < number_of_mines then
      -- `random.randint(0, board_width - 1)` raises ValueError on an
      -- empty range; likewise for the height. Otherwise the sampled
      -- `mine_x_location` is `(stream idx).1 % board_width` and
      -- `mine_y_location` is `(stream idx).2 % board_height`.
      if board_width - 1 < 0 || board_height - 1 < 0 then .raised
      else
        match pyGet2 g (((stream idx).2 % board_height.toNat : Nat) : Int)
            (((stream idx).1 % board_width.toNat : Nat) : Int) with
        | none => .raised
        | some blk =>
          if blk.is_mine then
            placeBombs board_width board_height number_of_mines stream fuel (idx + 1) n g
          else
            placeBombs board_width board_height number_of_mines stream fuel (idx + 1)
              (n + 1)
              (pySet2 g (((stream idx).2 % board_height.toNat : Nat) : Int)
                (((stream idx).1 % board_width.toNat : Nat) : Int)
                { type_ := BlockType.MINE, visible := false })
    else .ok g

/-- `Board.make_board`: build the all-normal grid (`range` of a
non-positive bound is empty), then place the mines. -/
def Board.make_board (board_width board_height number_of_mines : Int)
    (stream : Nat → Nat × Nat) (fuel : Nat) : MkRes :=
  placeBombs board_width board_height number_of_mines stream fuel 0 0
    (List.replicate board_height.toNat
      (List.replicate board_width.toNat { type_ := BlockType.NORMAL, visible := false }))

/-- `Board.__init__`. Performs no validation of the configuration. -/
def Board.init (board_width board_height number_of_mines : Int)
    (stream : Nat → Nat × Nat) (fuel : Nat) : Option Board :=
  match Board.make_board board_width board_height number_of_mines stream fuel with
  | .ok g => some
      { width := board_width - 1
        height := board_height - 1
        number_of_mines := number_of_mines
        unseen_blocks := board_width * board_height - number_of_mines
        board := g }
  | _ => none

def Board.is_in_valid_height_range (b : Board) (num : Int) : Bool :=
  0 ≤ num && num ≤ b.height

def Board.is_in_valid_width_range (b : Board) (num : Int) : Bool :=
  0 ≤ num && num ≤ b.width

/-- `Board.get_block` (`self.board[position.y][position.x]`). -/
def Board.get_block (b : Board) (y x : Int) : Option Block :=
  pyGet2 b.board y x

/-- The counting loop of `Board.get_block_near_bombs`, over the listed
window positions: skip out-of-range positions, count mines. `none`
records an impossible index error behind a passed guard. -/
def Board.countNear (b : Board) : List (Int × Int) → Nat → Option Nat
  | [], acc => some acc
  | p :: rest, acc =>
    if !(b.is_in_valid_height_range p.1) || !(b.is_in_valid_width_range p.2) then
      b.countNear rest acc
    else
      match pyGet2 b.board p.1 p.2 with
      | none => none
      | some blk => b.countNear rest (if blk.is_mine then acc + 1 else acc)

/-- `Board.get_block_near_bombs`: mines in the in-bounds part of the 3×3
window around `(y, x)` — including, as in the source, the center. -/
def Board.get_block_near_bombs (b : Board) (y x : Int) : Option Nat :=
  b.countNear (nbhd y x) 0

/-- `Board.get_block_repr`. -/
def Board.get_block_repr (b : Board) (y x : Int) : Option String :=
  match b.get_block y x with
  | none => none
  | some blk =>
    if blk.is_invisible then some UNKNOWN_BLOCK
    else if blk.is_mine then some MINE_REPR
    else
      match b.get_block_near_bombs y x with
      | none => none
      | some k => if k = 0 then some NO_SURROUNDING_MINES else some (toString k)

/-- `Board.get_block_true_repr`. -/
def Board.get_block_true_repr (b : Board) (y x : Int) : Option String :=
  match b.get_block y x with
  | none => none
  | some blk =>
    if blk.is_mine then some MINE_REPR
    else
      match b.get_block_near_bombs y x with
      | none => none
      | some k => if k = 0 then some NO_SURROUNDING_MINES else some (toString k)

/-- The `GameDriver` state: its board and its own `unseen_blocks`
counter. -/
structure GameDriver where
  game_board : Board
  unseen_blocks : Int
deriving DecidableEq, Repr

/-- `GameDriver.__init__`. -/
def GameDriver.init (board_width board_height number_of_mines : Int)
    (stream : Nat → Nat × Nat) (fuel : Nat) : Option GameDriver :=
  (Board.init board_width board_height number_of_mines stream fuel).map
    (fun b => { game_board := b
                unseen_blocks := board_height * board_width - number_of_mines })

/-- The semantic part of `GameDriver.is_valid_move` after the driver-side
string parsing: coordinates in range and the target block still
invisible. -/
def GameDriver.is_valid_move (s : GameDriver) (x y : Int) : Bool :=
  s.game_board.is_in_valid_width_range x && s.game_board.is_in_valid_height_range y &&
    (match pyGet2 s.game_board.board y x with
     | some blk => blk.is_invisible
     | none => false)

/-- Result of `do_move`: a `MoveResult` with the post-state, an index
error, or fuel exhaustion of the embedding's recursion bound. -/
inductive DmRes where
  | ok (r : MoveResult) (s : GameDriver)
  | oob
  | fuelOut
deriving DecidableEq, Repr

/-- The cascade loop of `do_move` over the 3×3 window: skip out-of-range
positions, recurse (via `rec`) into still-invisible blocks discarding the
recursive result, and finally `return MoveResult.ALL_OK`. -/
def cascadeGo (rec : GameDriver → Int → Int → DmRes) :
    List (Int × Int) → GameDriver → DmRes
  | [], s => .ok .ALL_OK s
  | p :: rest, s =>
    if !(s.game_board.is_in_valid_height_range p.1) ||
        !(s.game_board.is_in_valid_width_range p.2) then
      cascadeGo rec rest s
    else
      match pyGet2 s.game_board.board p.1 p.2 with
      | none => .oob
      | some blk =>
        if blk.is_invisible then
          match rec s p.1 p.2 with
          | .ok _ s' => cascadeGo rec rest s'
          | e => e
        else cascadeGo rec rest s

/-- One unfolding of `GameDriver.do_move`, with `rec` standing for the
recursive calls: make the target visible, decrement `unseen_blocks`,
return `FOUND_MINE` for a mine, stop on a positive near-bomb count, and
otherwise cascade over the window. -/
def do_moveF (rec : GameDriver → Int → Int → DmRes)
    (s : GameDriver) (my mx : Int) : DmRes :=
  match pyGet2 s.game_board.board my mx with
  | none => .oob
  | some blk =>
    let b1 : Board :=
      { s.game_board with board := pySet2 s.game_board.board my mx blk.make_visible }
    let s1 : GameDriver := { game_board := b1, unseen_blocks := s.unseen_blocks - 1 }
    match s1.game_board.get_block my mx with
    | none => .oob
    | some blk2 =>
      if blk2.is_mine then .ok .FOUND_MINE s1
      else
        match s1.game_board.get_block_near_bombs my mx with
        | none => .oob
        | some k =>
          if 0 < k then .ok .ALL_OK s1
          else cascadeGo rec (nbhd my mx) s1

/-- `GameDriver.do_move`, with fuel bounding the recursion depth. -/
def do_move : Nat → GameDriver → Int → Int → DmRes
  | 0, _, _, _ => .fuelOut
  | fuel + 1, s, my, mx => do_moveF (do_move fuel) s my mx

/-- `GameDriver.is_game_over`. -/
def GameDriver.is_game_over (s : GameDriver) : Bool :=
  s.unseen_blocks == 0

/-! ## Derived notions used to state the claims -/

/-- Well-formedness of a board: the grid has `height + 1` rows of
`width + 1` blocks each — exactly what construction establishes. -/
def wfB (b : Board) : Prop :=
  b.board.length = (b.height + 1).toNat ∧
    ∀ row ∈ b.board, row.length = (b.width + 1).toNat

def wfS (s : GameDriver) : Prop := wfB s.game_board

instance (b : Board) : Decidable (wfB b) := by
  unfold wfB; infer_instance

instance (s : GameDriver) : Decidable (wfS s) := by
  unfold wfS; infer_instance

/-- Both range guards at once, for a `(y, x)` pair. -/
def inBq (s : GameDriver) (p : Int × Int) : Bool :=
  s.game_board.is_in_valid_height_range p.1 && s.game_board.is_in_valid_width_range p.2

/-- Visibility of the cell addressed by `(y, x)` (false off the grid). -/
def visAt (s : GameDriver) (y x : Int) : Bool :=
  match pyGet2 s.game_board.board y x with
  | some blk => blk.is_visible
  | none => false

/-- Mine-ness of the cell addressed by `(y, x)` (false off the grid). -/
def mineAt (s : GameDriver) (y x : Int) : Bool :=
  match pyGet2 s.game_board.board y x with
  | some blk => blk.is_mine
  | none => false

/-- Number of mine blocks in a grid. -/
def countMines (g : Grid) : Nat :=
  (g.map (fun row => (row.filter Block.is_mine).length)).sum

/-- Number of invisible blocks in the state's grid. -/
def invCount (s : GameDriver) : Nat :=
  (s.game_board.board.map (fun row => (row.filter Block.is_invisible).length)).sum

/-- Range guards for a `(y, x)` pair at the board level. -/
def Board.inRange (b : Board) (p : Int × Int) : Bool :=
  b.is_in_valid_height_range p.1 && b.is_in_valid_width_range p.2

def Board.visAtB (b : Board) (y x : Int) : Bool :=
  match pyGet2 b.board y x with
  | some blk => blk.is_visible
  | none => false

def Board.mineAtB (b : Board) (y x : Int) : Bool :=
  match pyGet2 b.board y x with
  | some blk => blk.is_mine
  | none => false

/-- The number of mines in the in-bounds part of the 3×3 window around
`(y, x)`, center included — a filter-based restatement of what the
counting loop computes. -/
def windowMineCount (b : Board) (y x : Int) : Nat :=
  ((nbhd y x).filter (fun p => b.inRange p && b.mineAtB p.1 p.2)).length

/-- The up-to-8 neighbors of `(y, x)`: the 3×3 window minus its center. -/
def neighbors (y x : Int) : List (Int × Int) :=
  [(y - 1, x - 1), (y - 1, x), (y - 1, x + 1),
   (y, x - 1), (y, x + 1),
   (y + 1, x - 1), (y + 1, x), (y + 1, x + 1)]

/-- Modelled from the spec's words: the number of mines among the
up-to-8 in-bounds neighbors of `(y, x)`, the center excluded. -/
def specAdjCount (b : Board) (y x : Int) : Nat :=
  ((neighbors y x).filter (fun p => b.inRange p && b.mineAtB p.1 p.2)).length

/-- Cells the cascade started at `a` can operationally reach in state
`s`: `a` itself, and, from a reached cell with a zero near-bomb count,
any in-bounds window cell that is invisible in `s`. -/
inductive reach (s : GameDriver) (a : Int × Int) : Int × Int → Prop where
  | base : reach s a a
  | step {p q : Int × Int} : reach s a p →
      s.game_board.get_block_near_bombs p.1 p.2 = some 0 →
      q ∈ nbhd p.1 p.2 → s.game_board.inRange q = true →
      visAt s q.1 q.2 = false → reach s a q

/-- The connected zero-near-bomb-count region containing `a` (for an `a`
that is itself in bounds with count zero): cells joined to `a` by chains
of in-bounds zero-count cells, visibility ignored. -/
inductive zregion (s : GameDriver) (a : Int × Int) : Int × Int → Prop where
  | base : zregion s a a
  | step {p q : Int × Int} : zregion s a p → q ∈ nbhd p.1 p.2 →
      s.game_board.inRange q = true →
      s.game_board.get_block_near_bombs q.1 q.2 = some 0 → zregion s a q

/-- The border of the zero region of `a`: in-bounds cells of nonzero
count adjacent to a region cell. -/
def borderOf (s : GameDriver) (a q : Int × Int) : Prop :=
  s.game_board.inRange q = true ∧
    s.game_board.get_block_near_bombs q.1 q.2 ≠ some 0 ∧
    ∃ p, zregion s a p ∧ q ∈ nbhd p.1 p.2

/-- The maximal connected zero-count region of `a` together with its
border. -/
def regionBorder (s : GameDriver) (a q : Int × Int) : Prop :=
  zregion s a q ∨ borderOf s a q

/-- Every revealed zero-count cell already has its whole in-bounds window
revealed. This holds for a freshly constructed (all-hidden) board and is
the invariant the cascade maintains. -/
def closedZero (s : GameDriver) : Prop :=
  ∀ y x, s.game_board.inRange (y, x) = true → visAt s y x = true →
    s.game_board.get_block_near_bombs y x = some 0 →
    ∀ q ∈ nbhd y x, s.game_board.inRange q = true → visAt s q.1 q.2 = true

/-- States produced from `s` by any number of completed `do_move` calls on
in-bounds coordinates (the driver validates coordinates before every
call). -/
inductive Reachable : GameDriver → GameDriver → Prop where
  | refl (s : GameDriver) : Reachable s s
  | step {s s' s'' : GameDriver} {fuel : Nat} {my mx : Int} {r : MoveResult} :
      Reachable s s' → inBq s' (my, mx) = true →
      do_move fuel s' my mx = .ok r s'' → Reachable s s''

/-! ## Basic lemmas about the Python-indexing model -/

theorem pyResolve_of_nonneg_lt {len : Nat} {i : Int} (h0 : 0 ≤ i) (h : i < (len : Int)) :
    pyResolve len i = some i.toNat := by
  unfold pyResolve
  rw [if_pos h0, if_pos h]

theorem pyResolve_lt {len : Nat} {i : Int} {j : Nat} (h : pyResolve len i = some j) :
    j < len := by
  unfold pyResolve at h
  split at h
  · split at h
    · simp only [Option.some.injEq] at h
      omega
    · exact absurd h (by simp)
  · split at h
    · simp only [Option.some.injEq] at h
      omega
    · exact absurd h (by simp)

theorem pyGet_nonneg {α : Type} (l : List α) {i : Int} (h0 : 0 ≤ i) :
    pyGet l i = l.get? i.toNat := by
  unfold pyGet pyResolve
  rw [if_pos h0]
  by_cases h : i < (l.length : Int)
  · rw [if_pos h]
    rfl
  · rw [if_neg h]
    exact (List.get?_len_le (by omega)).symm

theorem pyGet_resolve {α : Type} {l : List α} {i : Int} {j : Nat}
    (h : pyResolve l.length i = some j) : pyGet l i = l.get? j := by
  unfold pyGet
  rw [h]
  rfl

theorem pyGet_mem {α : Type} {l : List α} {i : Int} {a : α} (h : pyGet l i = some a) :
    a ∈ l := by
  unfold pyGet at h
  cases hr : pyResolve l.length i with
  | none => rw [hr] at h; simp at h
  | some j =>
    rw [hr] at h
    exact List.get?_mem h

theorem pySet_nonneg {α : Type} (l : List α) {i : Int} (a : α)
    (h0 : 0 ≤ i) (h : i < (l.length : Int)) :
    pySet l i a = l.set i.toNat a := by
  unfold pySet
  rw [pyResolve_of_nonneg_lt h0 h]

theorem length_pySet {α : Type} (l : List α) (i : Int) (a : α) :
    (pySet l i a).length = l.length := by
  unfold pySet
  cases pyResolve l.length i <;> simp

theorem pyGet_pySet {α : Type} (l : List α) {i : Int} (a : α)
    (h0 : 0 ≤ i) (h : i < (l.length : Int)) (j : Int) :
    pyGet (pySet l i a) j =
      if pyResolve l.length j = some i.toNat then some a else pyGet l j := by
  rw [pySet_nonneg l a h0 h]
  unfold pyGet
  rw [List.length_set]
  cases hr : pyResolve l.length j with
  | none => simp
  | some k =>
    have hk : k < l.length := pyResolve_lt hr
    by_cases hki : k = i.toNat
    · subst hki
      rw [if_pos rfl]
      simp only [Option.some_bind]
      rw [List.get?_eq_getElem?, List.getElem?_set]
      simp [hk]
    · rw [if_neg (by simp [hki])]
      simp only [Option.some_bind]
      rw [List.get?_eq_getElem?, List.getElem?_set, if_neg (by omega), ← List.get?_eq_getElem?]

theorem pyGet2_nonneg {α : Type} (g : List (List α)) {y x : Int}
    (hy : 0 ≤ y) (hx : 0 ≤ x) :
    pyGet2 g y x = (g.get? y.toNat).bind (fun row => row.get? x.toNat) := by
  unfold pyGet2
  rw [pyGet_nonneg g hy]
  cases g.get? y.toNat with
  | none => rfl
  | some row => simp [pyGet_nonneg row hx]

theorem get?_some_lt {α : Type} {l : List α} {n : Nat} {a : α}
    (h : l.get? n = some a) : n < l.length := by
  by_contra hn
  rw [List.get?_len_le (by omega)] at h
  exact absurd h (by simp)

theorem pyGet2_some_parts {α : Type} {g : List (List α)} {y x : Int} {a : α}
    (hy : 0 ≤ y) (hx : 0 ≤ x) (h : pyGet2 g y x = some a) :
    ∃ row, g.get? y.toNat = some row ∧ row.get? x.toNat = some a := by
  rw [pyGet2_nonneg g hy hx] at h
  cases hrow : g.get? y.toNat with
  | none => rw [hrow] at h; exact absurd h (by simp)
  | some row =>
    rw [hrow] at h
    exact ⟨row, rfl, h⟩

theorem pySet2_canon {α : Type} {g : List (List α)} {y x : Int} {blk : α}
    (hy : 0 ≤ y) (hx : 0 ≤ x) (h : pyGet2 g y x = some blk) (a : α) :
    ∃ row, g.get? y.toNat = some row ∧
      pySet2 g y x a = g.set y.toNat (row.set x.toNat a) := by
  obtain ⟨row, hrow, hcell⟩ := pyGet2_some_parts hy hx h
  refine ⟨row, hrow, ?_⟩
  unfold pySet2
  have hg : pyGet g y = some row := by
    rw [pyGet_nonneg g hy, hrow]
  rw [hg]
  show pySet g y (pySet row x a) = _
  rw [pySet_nonneg row a hx (by have := get?_some_lt hcell; omega)]
  rw [pySet_nonneg g _ hy (by have := get?_some_lt hrow; omega)]

theorem pyGet2_pySet2_map {α γ : Type} (f : α → γ) {g : List (List α)}
    {my mx : Int} {blk : α}
    (hy : 0 ≤ my) (hx : 0 ≤ mx) (hget : pyGet2 g my mx = some blk) (a : α)
    (hf : f a = f blk) (y x : Int) :
    (pyGet2 (pySet2 g my mx a) y x).map f = (pyGet2 g y x).map f := by
  obtain ⟨row, hrow, hcell⟩ := pyGet2_some_parts hy hx hget
  have hylt : my.toNat < g.length := get?_some_lt hrow
  have hxlt : mx.toNat < row.length := get?_some_lt hcell
  have hg : pyGet g my = some row := by rw [pyGet_nonneg g hy, hrow]
  have hrx : pyGet row mx = some blk := by rw [pyGet_nonneg row hx, hcell]
  show (pyGet2 (pySet2 g my mx a) y x).map f = _
  unfold pySet2
  rw [hg]
  unfold pyGet2
  rw [pyGet_pySet g (pySet row mx a) hy (by omega) y]
  by_cases hres : pyResolve g.length y = some my.toNat
  · rw [if_pos hres]
    have hgy : pyGet g y = some row := by rw [pyGet_resolve hres, hrow]
    rw [hgy]
    simp only [Option.some_bind]
    rw [pyGet_pySet row a hx (by omega) x]
    by_cases hresx : pyResolve row.length x = some mx.toNat
    · rw [if_pos hresx]
      rw [pyGet_resolve hresx, hcell]
      simp [hf]
    · rw [if_neg hresx]
  · rw [if_neg hres]

theorem pySet2_length {α : Type} (g : List (List α)) (y x : Int) (a : α) :
    (pySet2 g y x a).length = g.length := by
  unfold pySet2
  cases pyGet g y with
  | none => rfl
  | some row => simp [length_pySet]

theorem pySet2_row_mem {α : Type} {g : List (List α)} {y x : Int} {a : α} :
    ∀ row' ∈ pySet2 g y x a, ∃ row ∈ g, row'.length = row.length := by
  intro row' hmem
  unfold pySet2 at hmem
  cases hg : pyGet g y with
  | none =>
    rw [hg] at hmem
    exact ⟨row', hmem, rfl⟩
  | some row =>
    rw [hg] at hmem
    unfold pySet at hmem
    cases hres : pyResolve g.length y with
    | none => rw [hres] at hmem; exact ⟨row', hmem, rfl⟩
    | some j =>
      rw [hres] at hmem
      rcases List.mem_or_eq_of_mem_set hmem with h | h
      · exact ⟨row', h, rfl⟩
      · refine ⟨row, pyGet_mem hg, ?_⟩
        rw [h]
        cases pyResolve row.length x <;> simp

theorem wfB_pySet2 {b : Board} (hwf : wfB b) (y x : Int) (a : Block) :
    wfB { b with board := pySet2 b.board y x a } := by
  constructor
  · show (pySet2 b.board y x a).length = _
    rw [pySet2_length]
    exact hwf.1
  · intro row' hmem
    obtain ⟨row, hrow, hlen⟩ := pySet2_row_mem row' hmem
    rw [hlen]
    exact hwf.2 row hrow

theorem guard_height {b : Board} {y : Int}
    (hy : b.is_in_valid_height_range y = true) : 0 ≤ y ∧ y ≤ b.height := by
  simpa [Board.is_in_valid_height_range] using hy

theorem guard_width {b : Board} {x : Int}
    (hx : b.is_in_valid_width_range x = true) : 0 ≤ x ∧ x ≤ b.width := by
  simpa [Board.is_in_valid_width_range] using hx

theorem wf_guard_get {b : Board} (hwf : wfB b) {y x : Int}
    (hy : b.is_in_valid_height_range y = true)
    (hx : b.is_in_valid_width_range x = true) :
    ∃ blk, pyGet2 b.board y x = some blk := by
  obtain ⟨hy0, hyh⟩ := guard_height hy
  obtain ⟨hx0, hxw⟩ := guard_width hx
  have hylt : y.toNat < b.board.length := by rw [hwf.1]; omega
  have hrow : b.board.get? y.toNat = some (b.board.get ⟨y.toNat, hylt⟩) :=
    List.get?_eq_get hylt
  have hrlen : (b.board.get ⟨y.toNat, hylt⟩).length = (b.width + 1).toNat :=
    hwf.2 _ (List.get_mem _ _ _)
  have hxlt : x.toNat < (b.board.get ⟨y.toNat, hylt⟩).length := by rw [hrlen]; omega
  refine ⟨(b.board.get ⟨y.toNat, hylt⟩).get ⟨x.toNat, hxlt⟩, ?_⟩
  rw [pyGet2_nonneg b.board hy0 hx0, hrow]
  simp only [Option.some_bind]
  exact List.get?_eq_get hxlt

/-! ## Counting lemmas -/

theorem filter_length_set_eq {α : Type} (p : α → Bool) :
    ∀ (l : List α) (j : Nat) (a b : α), l.get? j = some b → p a = p b →
      ((l.set j a).filter p).length = (l.filter p).length := by
  intro l
  induction l with
  | nil => intro j a b h _; simp at h
  | cons hd tl ih =>
    intro j a b h hp
    cases j with
    | zero =>
      simp only [List.get?] at h
      cases h
      simp only [List.set, List.filter, hp]
      cases hph : p hd <;> simp [hph]
    | succ j =>
      simp only [List.get?] at h
      simp only [List.set, List.filter]
      cases p hd <;> simp [ih j a b h hp]

theorem filter_length_set_tt {α : Type} (p : α → Bool) :
    ∀ (l : List α) (j : Nat) (a b : α), l.get? j = some b →
      p b = false → p a = true →
      ((l.set j a).filter p).length = (l.filter p).length + 1 := by
  intro l
  induction l with
  | nil => intro j a b h _ _; simp at h
  | cons hd tl ih =>
    intro j a b h hb ha
    cases j with
    | zero =>
      simp only [List.get?] at h
      cases h
      simp only [List.set, List.filter, ha, hb]
      simp
    | succ j =>
      simp only [List.get?] at h
      simp only [List.set, List.filter]
      cases p hd <;> simp [ih j a b h hb ha]

theorem filter_length_set_ff {α : Type} (p : α → Bool) :
    ∀ (l : List α) (j : Nat) (a b : α), l.get? j = some b →
      p b = true → p a = false →
      ((l.set j a).filter p).length + 1 = (l.filter p).length := by
  intro l
  induction l with
  | nil => intro j a b h _ _; simp at h
  | cons hd tl ih =>
    intro j a b h hb ha
    cases j with
    | zero =>
      simp only [List.get?] at h
      cases h
      simp only [List.set, List.filter, ha, hb]
      simp
    | succ j =>
      simp only [List.get?] at h
      simp only [List.set, List.filter]
      cases p hd <;> simp [← ih j a b h hb ha]

theorem sum_map_set {α : Type} (f : α → Nat) :
    ∀ (l : List α) (j : Nat) (a b : α), l.get? j = some b →
      ((l.set j a).map f).sum + f b = (l.map f).sum + f a := by
  intro l
  induction l with
  | nil => intro j a b h; simp at h
  | cons hd tl ih =>
    intro j a b h
    cases j with
    | zero =>
      simp only [List.get?] at h
      cases h
      simp only [List.set, List.map, List.sum_cons]
      omega
    | succ j =>
      simp only [List.get?] at h
      simp only [List.set, List.map, List.sum_cons]
      have := ih j a b h
      omega

/-- Number of invisible blocks in a grid. -/
def gridInv (g : Grid) : Nat :=
  (g.map (fun row => (row.filter Block.is_invisible).length)).sum

theorem invCount_eq_gridInv (s : GameDriver) : invCount s = gridInv s.game_board.board := rfl

theorem gridInv_reveal {g : Grid} {my mx : Int} {blk : Block}
    (hy : 0 ≤ my) (hx : 0 ≤ mx) (hget : pyGet2 g my mx = some blk)
    (hinv : blk.is_invisible = true) :
    gridInv (pySet2 g my mx blk.make_visible) + 1 = gridInv g := by
  obtain ⟨row, hrow, hset⟩ := pySet2_canon hy hx hget blk.make_visible
  obtain ⟨row', hrow', hcell⟩ := pyGet2_some_parts hy hx hget
  rw [hrow] at hrow'
  cases hrow'
  rw [hset]
  unfold gridInv
  have hsum := sum_map_set (fun row => (row.filter Block.is_invisible).length)
    g my.toNat (row.set mx.toNat blk.make_visible) row hrow
  have hrowcount := filter_length_set_ff Block.is_invisible row mx.toNat
    blk.make_visible blk hcell hinv (by simp [Block.make_visible, Block.is_invisible])
  beta_reduce at hsum
  omega

theorem gridInv_pySet2_same {g : Grid} {my mx : Int} {blk : Block} (a : Block)
    (hy : 0 ≤ my) (hx : 0 ≤ mx) (hget : pyGet2 g my mx = some blk)
    (hsame : a.is_invisible = blk.is_invisible) :
    gridInv (pySet2 g my mx a) = gridInv g := by
  obtain ⟨row, hrow, hset⟩ := pySet2_canon hy hx hget a
  obtain ⟨row', hrow', hcell⟩ := pyGet2_some_parts hy hx hget
  rw [hrow] at hrow'
  cases hrow'
  rw [hset]
  unfold gridInv
  have hsum := sum_map_set (fun row => (row.filter Block.is_invisible).length)
    g my.toNat (row.set mx.toNat a) row hrow
  have hrowcount := filter_length_set_eq Block.is_invisible row mx.toNat
    a blk hcell hsame
  beta_reduce at hsum
  omega

theorem countMines_pySet2_same {g : Grid} {my mx : Int} {blk : Block} (a : Block)
    (hy : 0 ≤ my) (hx : 0 ≤ mx) (hget : pyGet2 g my mx = some blk)
    (hsame : a.is_mine = blk.is_mine) :
    countMines (pySet2 g my mx a) = countMines g := by
  obtain ⟨row, hrow, hset⟩ := pySet2_canon hy hx hget a
  obtain ⟨row', hrow', hcell⟩ := pyGet2_some_parts hy hx hget
  rw [hrow] at hrow'
  cases hrow'
  rw [hset]
  unfold countMines
  have hsum := sum_map_set (fun row => (row.filter Block.is_mine).length)
    g my.toNat (row.set mx.toNat a) row hrow
  have hrowcount := filter_length_set_eq Block.is_mine row mx.toNat a blk hcell hsame
  beta_reduce at hsum
  omega

theorem countMines_pySet2_mine {g : Grid} {my mx : Int} {blk : Block} {a : Block}
    (hy : 0 ≤ my) (hx : 0 ≤ mx) (hget : pyGet2 g my mx = some blk)
    (hold : blk.is_mine = false) (hnew : a.is_mine = true) :
    countMines (pySet2 g my mx a) = countMines g + 1 := by
  obtain ⟨row, hrow, hset⟩ := pySet2_canon hy hx hget a
  obtain ⟨row', hrow', hcell⟩ := pyGet2_some_parts hy hx hget
  rw [hrow] at hrow'
  cases hrow'
  rw [hset]
  unfold countMines
  have hsum := sum_map_set (fun row => (row.filter Block.is_mine).length)
    g my.toNat (row.set mx.toNat a) row hrow
  have hrowcount := filter_length_set_tt Block.is_mine row mx.toNat a blk hcell hold hnew
  beta_reduce at hsum
  omega

theorem gridInv_pos {g : Grid} {y x : Int} {blk : Block}
    (hget : pyGet2 g y x = some blk) (hinv : blk.is_invisible = true) :
    0 < gridInv g := by
  unfold pyGet2 at hget
  cases hg : pyGet g y with
  | none => rw [hg] at hget; simp at hget
  | some row =>
    rw [hg] at hget
    simp only [Option.some_bind] at hget
    have hblk : blk ∈ row := pyGet_mem hget
    have hrow : row ∈ g := pyGet_mem hg
    have h1 : 0 < (row.filter Block.is_invisible).length := by
      have : blk ∈ row.filter Block.is_invisible := List.mem_filter.2 ⟨hblk, hinv⟩
      exact List.length_pos.2 (fun hn => by rw [hn] at this; simp at this)
    have h2 : (row.filter Block.is_invisible).length ∈
        g.map (fun row => (row.filter Block.is_invisible).length) :=
      List.mem_map.2 ⟨row, hrow, rfl⟩
    have := List.single_le_sum (fun (n : Nat) _ => Nat.zero_le n) _ h2
    unfold gridInv
    omega

/-! ## Cell update classification -/

theorem pyGet2_pySet2_self {α : Type} {g : List (List α)} {my mx : Int} {blk : α}
    (hy : 0 ≤ my) (hx : 0 ≤ mx) (hget : pyGet2 g my mx = some blk) (a : α) :
    pyGet2 (pySet2 g my mx a) my mx = some a := by
  obtain ⟨row, hrow, hcell⟩ := pyGet2_some_parts hy hx hget
  obtain ⟨row', hrow', hset⟩ := pySet2_canon hy hx hget a
  rw [hrow] at hrow'
  cases hrow'
  rw [hset]
  have hylt := get?_some_lt hrow
  have hxlt := get?_some_lt hcell
  rw [pyGet2_nonneg _ hy hx]
  rw [List.get?_eq_getElem?, List.getElem?_set, if_pos rfl, if_pos hylt]
  simp only [Option.some_bind]
  rw [List.get?_eq_getElem?, List.getElem?_set, if_pos rfl, if_pos (by simpa using hxlt)]

theorem pyGet2_pySet2_cases {α : Type} {g : List (List α)} {my mx : Int} {blk : α}
    (hy : 0 ≤ my) (hx : 0 ≤ mx) (hget : pyGet2 g my mx = some blk) (a : α) (y x : Int) :
    pyGet2 (pySet2 g my mx a) y x = pyGet2 g y x ∨
      (pyGet2 (pySet2 g my mx a) y x = some a ∧ pyGet2 g y x = some blk) := by
  obtain ⟨row, hrow, hcell⟩ := pyGet2_some_parts hy hx hget
  have hylt : my.toNat < g.length := get?_some_lt hrow
  have hxlt : mx.toNat < row.length := get?_some_lt hcell
  have hg : pyGet g my = some row := by rw [pyGet_nonneg g hy, hrow]
  show pyGet2 (pySet2 g my mx a) y x = _ ∨ _
  unfold pySet2
  rw [hg]
  unfold pyGet2
  rw [pyGet_pySet g (pySet row mx a) hy (by omega) y]
  by_cases hres : pyResolve g.length y = some my.toNat
  · rw [if_pos hres]
    have hgy : pyGet g y = some row := by rw [pyGet_resolve hres, hrow]
    rw [hgy]
    simp only [Option.some_bind]
    rw [pyGet_pySet row a hx (by omega) x]
    by_cases hresx : pyResolve row.length x = some mx.toNat
    · rw [if_pos hresx]
      right
      exact ⟨rfl, by rw [pyGet_resolve hresx, hcell]⟩
    · rw [if_neg hresx]
      left
      rfl
  · rw [if_neg hres]
    left
    rfl

theorem pyGet2_pySet2_ne {α : Type} {g : List (List α)} {my mx : Int} {blk : α}
    (hy : 0 ≤ my) (hx : 0 ≤ mx) (hget : pyGet2 g my mx = some blk) (a : α)
    {y x : Int} (hy' : 0 ≤ y) (hx' : 0 ≤ x) (hne : ¬(y = my ∧ x = mx)) :
    pyGet2 (pySet2 g my mx a) y x = pyGet2 g y x := by
  obtain ⟨row, hrow, hcell⟩ := pyGet2_some_parts hy hx hget
  have hylt : my.toNat < g.length := get?_some_lt hrow
  have hxlt : mx.toNat < row.length := get?_some_lt hcell
  have hg : pyGet g my = some row := by rw [pyGet_nonneg g hy, hrow]
  show pyGet2 (pySet2 g my mx a) y x = _
  unfold pySet2
  rw [hg]
  unfold pyGet2
  rw [pyGet_pySet g (pySet row mx a) hy (by omega) y]
  by_cases hres : pyResolve g.length y = some my.toNat
  · rw [if_pos hres]
    have hyeq : y = my := by
      by_cases hylt' : y < (g.length : Int)
      · have h1 : pyResolve g.length y = some y.toNat := pyResolve_of_nonneg_lt hy' hylt'
        rw [h1] at hres
        simp only [Option.some.injEq] at hres
        omega
      · unfold pyResolve at hres
        rw [if_pos hy', if_neg hylt'] at hres
        exact absurd hres (by simp)
    subst hyeq
    have hgy : pyGet g y = some row := hg
    rw [hgy]
    simp only [Option.some_bind]
    rw [pyGet_pySet row a hx (by omega) x]
    by_cases hresx : pyResolve row.length x = some mx.toNat
    · exfalso
      have hxeq : x = mx := by
        by_cases hxlt' : x < (row.length : Int)
        · have := pyResolve_of_nonneg_lt hx' hxlt'
          rw [this] at hresx
          simp only [Option.some.injEq] at hresx
          omega
        · unfold pyResolve at hresx
          rw [if_pos hx', if_neg hxlt'] at hresx
          exact absurd hresx (by simp)
      exact hne ⟨rfl, hxeq⟩
    · rw [if_neg hresx]
  · rw [if_neg hres]

/-! ## State relations preserved by moves -/

/-- The static data of two states agree: dimensions and the mine map.
Reveal operations preserve this. -/
structure SameStatic (s s' : GameDriver) : Prop where
  w : s'.game_board.width = s.game_board.width
  h : s'.game_board.height = s.game_board.height
  mines : ∀ y x : Int, (pyGet2 s'.game_board.board y x).map Block.is_mine
      = (pyGet2 s.game_board.board y x).map Block.is_mine

theorem SameStatic.refl (s : GameDriver) : SameStatic s s := ⟨rfl, rfl, fun _ _ => rfl⟩

theorem SameStatic.trans {s s' s'' : GameDriver}
    (a : SameStatic s s') (b : SameStatic s' s'') : SameStatic s s'' :=
  ⟨b.w.trans a.w, b.h.trans a.h, fun y x => (b.mines y x).trans (a.mines y x)⟩

theorem SameStatic.heightRange {s s' : GameDriver} (st : SameStatic s s') (y : Int) :
    s'.game_board.is_in_valid_height_range y = s.game_board.is_in_valid_height_range y := by
  unfold Board.is_in_valid_height_range
  rw [st.h]

theorem SameStatic.widthRange {s s' : GameDriver} (st : SameStatic s s') (x : Int) :
    s'.game_board.is_in_valid_width_range x = s.game_board.is_in_valid_width_range x := by
  unfold Board.is_in_valid_width_range
  rw [st.w]

theorem SameStatic.range {s s' : GameDriver} (st : SameStatic s s') (p : Int × Int) :
    s'.game_board.inRange p = s.game_board.inRange p := by
  unfold Board.inRange
  rw [st.heightRange, st.widthRange]

theorem SameStatic.mineAt {s s' : GameDriver} (st : SameStatic s s') (y x : Int) :
    s'.game_board.mineAtB y x = s.game_board.mineAtB y x := by
  unfold Board.mineAtB
  have := st.mines y x
  cases h1 : pyGet2 s'.game_board.board y x <;>
    cases h2 : pyGet2 s.game_board.board y x <;>
      rw [h1, h2] at this <;> simp_all

theorem SameStatic.countNear {s s' : GameDriver} (st : SameStatic s s') :
    ∀ (L : List (Int × Int)) (acc : Nat),
      s'.game_board.countNear L acc = s.game_board.countNear L acc := by
  intro L
  induction L with
  | nil => intro acc; rfl
  | cons p rest ih =>
    intro acc
    unfold Board.countNear
    rw [st.heightRange, st.widthRange]
    by_cases hguard : (!(s.game_board.is_in_valid_height_range p.1) ||
        !(s.game_board.is_in_valid_width_range p.2)) = true
    · rw [if_pos hguard, if_pos hguard]
      exact ih acc
    · rw [if_neg hguard, if_neg hguard]
      have := st.mines p.1 p.2
      cases h1 : pyGet2 s'.game_board.board p.1 p.2 with
      | none =>
        rw [h1] at this
        cases h2 : pyGet2 s.game_board.board p.1 p.2 with
        | none => rfl
        | some blk => rw [h2] at this; simp at this
      | some blk' =>
        rw [h1] at this
        cases h2 : pyGet2 s.game_board.board p.1 p.2 with
        | none => rw [h2] at this; simp at this
        | some blk =>
          rw [h2] at this
          simp only [Option.map_some'] at this
          simp only [Option.some.injEq] at this
          show s'.game_board.countNear rest (if blk'.is_mine = true then acc + 1 else acc)
              = s.game_board.countNear rest (if blk.is_mine = true then acc + 1 else acc)
          rw [this]
          exact ih _

theorem SameStatic.nearBombs {s s' : GameDriver} (st : SameStatic s s') (y x : Int) :
    s'.game_board.get_block_near_bombs y x = s.game_board.get_block_near_bombs y x :=
  st.countNear (nbhd y x) 0

/-! ## Characterizing the near-bomb count -/

theorem countNear_eq_filter {b : Board} (hwf : wfB b) :
    ∀ (L : List (Int × Int)) (acc : Nat),
      b.countNear L acc =
        some (acc + (L.filter (fun p => b.inRange p && b.mineAtB p.1 p.2)).length) := by
  intro L
  induction L with
  | nil => intro acc; simp [Board.countNear]
  | cons p rest ih =>
    intro acc
    unfold Board.countNear
    by_cases hin : b.inRange p = true
    · have hA : b.is_in_valid_height_range p.1 = true := by
        unfold Board.inRange at hin
        exact (Bool.and_eq_true .. |>.mp hin).1
      have hB : b.is_in_valid_width_range p.2 = true := by
        unfold Board.inRange at hin
        exact (Bool.and_eq_true .. |>.mp hin).2
      rw [if_neg (by simp [hA, hB])]
      obtain ⟨blk, hblk⟩ := wf_guard_get hwf hA hB
      rw [hblk]
      have hmine : b.mineAtB p.1 p.2 = blk.is_mine := by
        unfold Board.mineAtB
        rw [hblk]
      show b.countNear rest (if blk.is_mine = true then acc + 1 else acc) = _
      cases hm : blk.is_mine
      · rw [if_neg (by simp [hm])]
        rw [ih acc]
        congr 2
        rw [List.filter_cons, if_neg (by simp [hin, hmine, hm])]
      · rw [if_pos (by simp [hm])]
        rw [ih (acc + 1)]
        congr 1
        rw [List.filter_cons, if_pos (by simp [hin, hmine, hm])]
        simp only [List.length_cons]
        omega
    · simp only [Bool.not_eq_true] at hin
      have hg : (!(b.is_in_valid_height_range p.1) ||
          !(b.is_in_valid_width_range p.2)) = true := by
        unfold Board.inRange at hin
        cases hA : b.is_in_valid_height_range p.1 <;>
          cases hB : b.is_in_valid_width_range p.2 <;> simp_all
      rw [if_pos hg]
      rw [ih acc]
      congr 2
      rw [List.filter_cons, if_neg (by simp [hin])]

theorem get_block_near_bombs_eq {b : Board} (hwf : wfB b) (y x : Int) :
    b.get_block_near_bombs y x = some (windowMineCount b y x) := by
  unfold Board.get_block_near_bombs windowMineCount
  rw [countNear_eq_filter hwf]
  simp

theorem window_zero_no_mines {b : Board} (hwf : wfB b) {y x : Int}
    (h : b.get_block_near_bombs y x = some 0) :
    ∀ q ∈ nbhd y x, b.inRange q = true → b.mineAtB q.1 q.2 = false := by
  rw [get_block_near_bombs_eq hwf] at h
  simp only [Option.some.injEq] at h
  intro q hq hr
  cases hm : b.mineAtB q.1 q.2
  · rfl
  · exfalso
    have hmem : q ∈ (nbhd y x).filter (fun p => b.inRange p && b.mineAtB p.1 p.2) :=
      List.mem_filter.2 ⟨hq, by simp [hr, hm]⟩
    unfold windowMineCount at h
    rw [List.length_eq_zero] at h
    rw [h] at hmem
    simp at hmem

theorem zero_center_not_mine {b : Board} (hwf : wfB b) {y x : Int}
    (hr : b.inRange (y, x) = true) (h : b.get_block_near_bombs y x = some 0) :
    b.mineAtB y x = false :=
  window_zero_no_mines hwf h (y, x) (by simp [nbhd]) hr

theorem mine_center_pos {b : Board} (hwf : wfB b) {y x : Int}
    (hr : b.inRange (y, x) = true) (hm : b.mineAtB y x = true) :
    b.get_block_near_bombs y x = some (windowMineCount b y x) ∧
      0 < windowMineCount b y x := by
  refine ⟨get_block_near_bombs_eq hwf y x, ?_⟩
  have hmem : (y, x) ∈ (nbhd y x).filter (fun p => b.inRange p && b.mineAtB p.1 p.2) :=
    List.mem_filter.2 ⟨by simp [nbhd], by simp [hr, hm]⟩
  exact List.length_pos_of_mem hmem

theorem windowMineCount_split (b : Board) (y x : Int) :
    windowMineCount b y x =
      specAdjCount b y x + (if b.inRange (y, x) && b.mineAtB y x then 1 else 0) := by
  have h1 : nbhd y x =
      [(y - 1, x - 1), (y - 1, x), (y - 1, x + 1), (y, x - 1)] ++ [(y, x)] ++
        [(y, x + 1), (y + 1, x - 1), (y + 1, x), (y + 1, x + 1)] := rfl
  have h2 : neighbors y x =
      [(y - 1, x - 1), (y - 1, x), (y - 1, x + 1), (y, x - 1)] ++
        [(y, x + 1), (y + 1, x - 1), (y + 1, x), (y + 1, x + 1)] := rfl
  unfold windowMineCount specAdjCount
  rw [h1, h2]
  simp only [List.filter_append, List.length_append]
  cases hc : b.inRange (y, x) && b.mineAtB y x
  · rw [if_neg (by simp)]
    have hmid : (List.filter (fun p => b.inRange p && b.mineAtB p.1 p.2) [(y, x)]).length
        = 0 := by
      simp [List.filter_cons, hc]
    omega
  · rw [if_pos rfl]
    have hmid : (List.filter (fun p => b.inRange p && b.mineAtB p.1 p.2) [(y, x)]).length
        = 1 := by
      simp [List.filter_cons, hc]
    omega

/-! ## Helpers for visibility and reachability -/

theorem inBq_eq (s : GameDriver) (p : Int × Int) : inBq s p = s.game_board.inRange p := rfl

theorem visAt_eq_of_get {s : GameDriver} {y x : Int} {blk : Block}
    (h : pyGet2 s.game_board.board y x = some blk) : visAt s y x = blk.is_visible := by
  unfold visAt
  rw [h]

theorem mineAt_eq_of_get {s : GameDriver} {y x : Int} {blk : Block}
    (h : pyGet2 s.game_board.board y x = some blk) : mineAt s y x = blk.is_mine := by
  unfold mineAt
  rw [h]

theorem mineAt_eq_mineAtB (s : GameDriver) (y x : Int) :
    mineAt s y x = s.game_board.mineAtB y x := rfl

theorem reach_antitone {s s'' : GameDriver} (st : SameStatic s s'')
    (hmono : ∀ y x : Int, visAt s y x = true → visAt s'' y x = true)
    {a q : Int × Int} (h : reach s'' a q) : reach s a q := by
  induction h with
  | base => exact .base
  | step hp hnb hmem hr hinv ih =>
    rename_i p q
    refine .step ih ?_ hmem ?_ ?_
    · rw [← st.nearBombs]
      exact hnb
    · rw [← st.range]
      exact hr
    · cases hv : visAt s q.1 q.2
      · rfl
      · rw [hmono q.1 q.2 hv] at hinv
        exact absurd hinv (by simp)

theorem reach_prepend {s : GameDriver} {a n q : Int × Int}
    (hz : s.game_board.get_block_near_bombs a.1 a.2 = some 0)
    (hmem : n ∈ nbhd a.1 a.2) (hr : s.game_board.inRange n = true)
    (hinv : visAt s n.1 n.2 = false) (h : reach s n q) : reach s a q := by
  induction h with
  | base => exact .step .base hz hmem hr hinv
  | step hp hnb hmem' hr' hinv' ih => exact .step ih hnb hmem' hr' hinv'

/-- Everything a completed `do_move` call guarantees about its post-state. -/
structure MoveRun (s : GameDriver) (my mx : Int) (r : MoveResult) (s' : GameDriver) : Prop where
  static : SameStatic s s'
  wf : wfS s'
  mono : ∀ y x : Int, visAt s y x = true → visAt s' y x = true
  target : visAt s' my mx = true
  sound : ∀ y x : Int, inBq s (y, x) = true → visAt s' y x = true →
      visAt s y x = true ∨ reach s (my, mx) (y, x)
  nzc : ∀ y x : Int, inBq s (y, x) = true → visAt s y x = false → visAt s' y x = true →
      s.game_board.get_block_near_bombs y x = some 0 →
      ∀ q ∈ nbhd y x, inBq s q = true → visAt s' q.1 q.2 = true
  account : (invCount s : Int) - invCount s' = s.unseen_blocks - s'.unseen_blocks
  dec : invCount s' < invCount s
  res : r = .FOUND_MINE ↔ mineAt s my mx = true

/-- Everything a completed cascade loop over `L` guarantees. -/
structure CascadeRun (L : List (Int × Int)) (s s' : GameDriver) : Prop where
  static : SameStatic s s'
  wf : wfS s'
  mono : ∀ y x : Int, visAt s y x = true → visAt s' y x = true
  covered : ∀ p ∈ L, inBq s p = true → visAt s' p.1 p.2 = true
  sound : ∀ y x : Int, inBq s (y, x) = true → visAt s' y x = true →
      visAt s y x = true ∨
        ∃ p ∈ L, inBq s p = true ∧ visAt s p.1 p.2 = false ∧ reach s p (y, x)
  nzc : ∀ y x : Int, inBq s (y, x) = true → visAt s y x = false → visAt s' y x = true →
      s.game_board.get_block_near_bombs y x = some 0 →
      ∀ q ∈ nbhd y x, inBq s q = true → visAt s' q.1 q.2 = true
  account : (invCount s : Int) - invCount s' = s.unseen_blocks - s'.unseen_blocks
  le : invCount s' ≤ invCount s

/-- The state after the first two statements of `do_move`: the target
block made visible and `unseen_blocks` decremented. -/
def revealState (s : GameDriver) (my mx : Int) (blk : Block) : GameDriver :=
  { game_board :=
      { s.game_board with board := pySet2 s.game_board.board my mx blk.make_visible },
    unseen_blocks := s.unseen_blocks - 1 }

theorem do_move_step {fuel : Nat} {s : GameDriver} {my mx : Int} {blk : Block}
    (hget : pyGet2 s.game_board.board my mx = some blk) :
    do_move (fuel + 1) s my mx =
      (match pyGet2 (revealState s my mx blk).game_board.board my mx with
      | none => .oob
      | some blk2 =>
        if blk2.is_mine then .ok .FOUND_MINE (revealState s my mx blk)
        else
          match (revealState s my mx blk).game_board.get_block_near_bombs my mx with
          | none => .oob
          | some k =>
            if 0 < k then .ok .ALL_OK (revealState s my mx blk)
            else cascadeGo (do_move fuel) (nbhd my mx) (revealState s my mx blk)) := by
  show do_moveF (do_move fuel) s my mx = _
  unfold do_moveF revealState
  rw [hget]
  rfl

theorem invisible_of_visAt_false {s : GameDriver} {my mx : Int} {blk : Block}
    (hget : pyGet2 s.game_board.board my mx = some blk)
    (hinv : visAt s my mx = false) : blk.is_invisible = true := by
  have h := visAt_eq_of_get hget
  rw [hinv] at h
  unfold Block.is_visible at h
  unfold Block.is_invisible
  rw [← h]
  rfl

theorem cascadeGo_guard_skip {rec : GameDriver → Int → Int → DmRes} {p : Int × Int}
    {rest : List (Int × Int)} {s : GameDriver} (h : inBq s p = false) :
    cascadeGo rec (p :: rest) s = cascadeGo rec rest s := by
  conv_lhs => rw [cascadeGo]
  rw [if_pos ?cond]
  case cond =>
    unfold inBq at h
    cases hA : s.game_board.is_in_valid_height_range p.1 <;>
      cases hB : s.game_board.is_in_valid_width_range p.2 <;> simp_all

theorem cascadeGo_vis_skip {rec : GameDriver → Int → Int → DmRes} {p : Int × Int}
    {rest : List (Int × Int)} {s : GameDriver} {blk : Block} (hin : inBq s p = true)
    (hget : pyGet2 s.game_board.board p.1 p.2 = some blk)
    (hbv : blk.is_invisible = false) :
    cascadeGo rec (p :: rest) s = cascadeGo rec rest s := by
  conv_lhs => rw [cascadeGo]
  unfold inBq at hin
  rw [if_neg (by simp [(Bool.and_eq_true .. |>.mp hin).1, (Bool.and_eq_true .. |>.mp hin).2])]
  rw [hget]
  show (if blk.is_invisible = true then _ else cascadeGo rec rest s) = _
  rw [if_neg (by rw [hbv]; simp)]

theorem cascadeGo_rec_step {rec : GameDriver → Int → Int → DmRes} {p : Int × Int}
    {rest : List (Int × Int)} {s : GameDriver} {blk : Block} (hin : inBq s p = true)
    (hget : pyGet2 s.game_board.board p.1 p.2 = some blk)
    (hbv : blk.is_invisible = true) :
    cascadeGo rec (p :: rest) s =
      (match rec s p.1 p.2 with
       | .ok _ s' => cascadeGo rec rest s'
       | e => e) := by
  conv_lhs => rw [cascadeGo]
  unfold inBq at hin
  rw [if_neg (by simp [(Bool.and_eq_true .. |>.mp hin).1, (Bool.and_eq_true .. |>.mp hin).2])]
  rw [hget]
  show (if blk.is_invisible = true then _ else _) = _
  rw [if_pos hbv]

theorem inBq_same {s s'' : GameDriver} (st : SameStatic s s'') (q : Int × Int) :
    inBq s'' q = inBq s q := by
  rw [inBq_eq, inBq_eq, st.range]

theorem CascadeRun.cons_skip {p : Int × Int} {rest : List (Int × Int)}
    {s s' : GameDriver}
    (hin : inBq s p = false ∨ visAt s p.1 p.2 = true)
    (run : CascadeRun rest s s') : CascadeRun (p :: rest) s s' where
  static := run.static
  wf := run.wf
  mono := run.mono
  covered := by
    intro q hq hqin
    rcases List.mem_cons.mp hq with h | h
    · subst h
      rcases hin with h' | h'
      · rw [h'] at hqin
        exact absurd hqin (by simp)
      · exact run.mono _ _ h'
    · exact run.covered q h hqin
  sound := by
    intro y x hinB hvis
    rcases run.sound y x hinB hvis with h | ⟨q, hq, hrest⟩
    · exact Or.inl h
    · exact Or.inr ⟨q, List.mem_cons_of_mem _ hq, hrest⟩
  nzc := run.nzc
  account := run.account
  le := run.le

theorem CascadeRun.cons_child {p : Int × Int} {rest : List (Int × Int)}
    {s s'' s' : GameDriver} {r : MoveResult}
    (hin : inBq s p = true) (hvisp : visAt s p.1 p.2 = false)
    (child : MoveRun s p.1 p.2 r s'')
    (run : CascadeRun rest s'' s') : CascadeRun (p :: rest) s s' where
  static := child.static.trans run.static
  wf := run.wf
  mono := fun y x h => run.mono y x (child.mono y x h)
  covered := by
    intro q hq hqin
    rcases List.mem_cons.mp hq with h | h
    · subst h
      exact run.mono _ _ child.target
    · exact run.covered q h (by rw [inBq_same child.static]; exact hqin)
  sound := by
    intro y x hinB hvis
    have hinB'' : inBq s'' (y, x) = true := by
      rw [inBq_same child.static]
      exact hinB
    rcases run.sound y x hinB'' hvis with h | ⟨q, hq, hqin'', hqvis'', hreach''⟩
    · rcases child.sound y x hinB h with h' | h'
      · exact Or.inl h'
      · exact Or.inr ⟨p, List.mem_cons_self _ _, hin, hvisp, h'⟩
    · right
      refine ⟨q, List.mem_cons_of_mem _ hq, ?_, ?_, ?_⟩
      · rw [← inBq_same child.static]
        exact hqin''
      · cases hv : visAt s q.1 q.2
        · rfl
        · rw [child.mono q.1 q.2 hv] at hqvis''
          exact absurd hqvis'' (by simp)
      · exact reach_antitone child.static child.mono hreach''
  nzc := by
    intro y x hinB hvis0 hvis' hnb q hq hqin
    by_cases hv'' : visAt s'' y x = true
    · exact run.mono q.1 q.2 (child.nzc y x hinB hvis0 hv'' hnb q hq hqin)
    · have hv''f : visAt s'' y x = false := by
        cases h : visAt s'' y x
        · rfl
        · exact absurd h hv''
      have hinB'' : inBq s'' (y, x) = true := by
        rw [inBq_same child.static]
        exact hinB
      have hnb'' : s''.game_board.get_block_near_bombs y x = some 0 := by
        rw [child.static.nearBombs]
        exact hnb
      have hqin'' : inBq s'' q = true := by
        rw [inBq_same child.static]
        exact hqin
      exact run.nzc y x hinB'' hv''f hvis' hnb'' q hq hqin''
  account := by
    have h1 := child.account
    have h2 := run.account
    omega
  le := by
    have h1 := child.dec
    have h2 := run.le
    omega

theorem cascadeGo_spec (rec : GameDriver → Int → Int → DmRes) (F : Nat)
    (hrec : ∀ s my mx, wfS s → inBq s (my, mx) = true → visAt s my mx = false →
      invCount s ≤ F → ∃ r s', rec s my mx = .ok r s' ∧ MoveRun s my mx r s') :
    ∀ (L : List (Int × Int)) (s : GameDriver), wfS s → invCount s ≤ F →
      ∃ s', cascadeGo rec L s = .ok .ALL_OK s' ∧ CascadeRun L s s' := by
  intro L
  induction L with
  | nil =>
    intro s hwf hF
    refine ⟨s, rfl, ?_⟩
    refine ⟨SameStatic.refl s, hwf, fun y x h => h, by simp, fun y x _ h => Or.inl h,
      ?_, by omega, le_refl _⟩
    intro y x _ h1 h2
    rw [h1] at h2
    exact absurd h2 (by simp)
  | cons p rest ih =>
    intro s hwf hF
    by_cases hin : inBq s p = true
    · have hA : s.game_board.is_in_valid_height_range p.1 = true :=
        (Bool.and_eq_true .. |>.mp hin).1
      have hB : s.game_board.is_in_valid_width_range p.2 = true :=
        (Bool.and_eq_true .. |>.mp hin).2
      obtain ⟨blk, hget⟩ := wf_guard_get hwf hA hB
      by_cases hbv : blk.is_invisible = true
      · have hvisp : visAt s p.1 p.2 = false := by
          rw [visAt_eq_of_get hget]
          revert hbv
          unfold Block.is_invisible Block.is_visible
          cases blk.visible <;> simp
        obtain ⟨r, s'', hrec_eq, child⟩ := hrec s p.1 p.2 hwf hin hvisp hF
        have hF'' : invCount s'' ≤ F := by
          have := child.dec
          omega
        obtain ⟨s', hrest_eq, run⟩ := ih s'' child.wf hF''
        refine ⟨s', ?_, CascadeRun.cons_child hin hvisp child run⟩
        rw [cascadeGo_rec_step hin hget hbv, hrec_eq]
        exact hrest_eq
      · have hbv' : blk.is_invisible = false := by
          cases h : blk.is_invisible
          · rfl
          · exact absurd h hbv
        have hvisp : visAt s p.1 p.2 = true := by
          rw [visAt_eq_of_get hget]
          revert hbv'
          unfold Block.is_invisible Block.is_visible
          cases blk.visible <;> simp
        obtain ⟨s', hrest_eq, run⟩ := ih s hwf hF
        refine ⟨s', ?_, CascadeRun.cons_skip (Or.inr hvisp) run⟩
        rw [cascadeGo_vis_skip hin hget hbv']
        exact hrest_eq
    · have hin' : inBq s p = false := by
        cases h : inBq s p
        · rfl
        · exact absurd h hin
      obtain ⟨s', hrest_eq, run⟩ := ih s hwf hF
      refine ⟨s', ?_, CascadeRun.cons_skip (Or.inl hin') run⟩
      rw [cascadeGo_guard_skip hin']
      exact hrest_eq

theorem do_move_mine {fuel : Nat} {s : GameDriver} {my mx : Int} {blk : Block}
    (hy0 : 0 ≤ my) (hx0 : 0 ≤ mx)
    (hget : pyGet2 s.game_board.board my mx = some blk) (hm : blk.is_mine = true) :
    do_move (fuel + 1) s my mx = .ok .FOUND_MINE (revealState s my mx blk) := by
  rw [do_move_step hget]
  have hself : pyGet2 (revealState s my mx blk).game_board.board my mx
      = some blk.make_visible := pyGet2_pySet2_self hy0 hx0 hget blk.make_visible
  rw [hself]
  show (if blk.make_visible.is_mine = true then _ else _) = _
  rw [if_pos (show blk.make_visible.is_mine = true from hm)]

theorem do_move_pos {fuel : Nat} {s : GameDriver} {my mx : Int} {blk : Block} {k : Nat}
    (hy0 : 0 ≤ my) (hx0 : 0 ≤ mx)
    (hget : pyGet2 s.game_board.board my mx = some blk) (hm : blk.is_mine = false)
    (hnb : (revealState s my mx blk).game_board.get_block_near_bombs my mx = some k)
    (hk : 0 < k) :
    do_move (fuel + 1) s my mx = .ok .ALL_OK (revealState s my mx blk) := by
  rw [do_move_step hget]
  have hself : pyGet2 (revealState s my mx blk).game_board.board my mx
      = some blk.make_visible := pyGet2_pySet2_self hy0 hx0 hget blk.make_visible
  rw [hself]
  show (if blk.make_visible.is_mine = true then _ else _) = _
  have hm' : blk.make_visible.is_mine = false := hm
  rw [if_neg (by rw [hm']; simp)]
  rw [hnb]
  show (if 0 < k then _ else _) = _
  rw [if_pos hk]

theorem do_move_zero {fuel : Nat} {s : GameDriver} {my mx : Int} {blk : Block}
    (hy0 : 0 ≤ my) (hx0 : 0 ≤ mx)
    (hget : pyGet2 s.game_board.board my mx = some blk) (hm : blk.is_mine = false)
    (hnb : (revealState s my mx blk).game_board.get_block_near_bombs my mx = some 0) :
    do_move (fuel + 1) s my mx =
      cascadeGo (do_move fuel) (nbhd my mx) (revealState s my mx blk) := by
  rw [do_move_step hget]
  have hself : pyGet2 (revealState s my mx blk).game_board.board my mx
      = some blk.make_visible := pyGet2_pySet2_self hy0 hx0 hget blk.make_visible
  rw [hself]
  show (if blk.make_visible.is_mine = true then _ else _) = _
  have hm' : blk.make_visible.is_mine = false := hm
  rw [if_neg (by rw [hm']; simp)]
  rw [hnb]
  show (if 0 < 0 then _ else _) = _
  rw [if_neg (by simp)]

theorem revealState_static {s : GameDriver} {my mx : Int} {blk : Block}
    (hy0 : 0 ≤ my) (hx0 : 0 ≤ mx)
    (hget : pyGet2 s.game_board.board my mx = some blk) :
    SameStatic s (revealState s my mx blk) :=
  ⟨rfl, rfl, fun y x => pyGet2_pySet2_map Block.is_mine hy0 hx0 hget blk.make_visible rfl y x⟩

theorem revealState_wf {s : GameDriver} {my mx : Int} {blk : Block}
    (hwf : wfS s) : wfS (revealState s my mx blk) :=
  wfB_pySet2 hwf my mx blk.make_visible

theorem revealState_invCount {s : GameDriver} {my mx : Int} {blk : Block}
    (hy0 : 0 ≤ my) (hx0 : 0 ≤ mx)
    (hget : pyGet2 s.game_board.board my mx = some blk) (hbv : blk.is_invisible = true) :
    invCount (revealState s my mx blk) + 1 = invCount s := by
  rw [invCount_eq_gridInv, invCount_eq_gridInv]
  exact gridInv_reveal hy0 hx0 hget hbv

theorem revealState_unseen (s : GameDriver) (my mx : Int) (blk : Block) :
    (revealState s my mx blk).unseen_blocks = s.unseen_blocks - 1 := rfl

theorem revealState_target {s : GameDriver} {my mx : Int} {blk : Block}
    (hy0 : 0 ≤ my) (hx0 : 0 ≤ mx)
    (hget : pyGet2 s.game_board.board my mx = some blk) :
    visAt (revealState s my mx blk) my mx = true := by
  have hself : pyGet2 (revealState s my mx blk).game_board.board my mx
      = some blk.make_visible := pyGet2_pySet2_self hy0 hx0 hget blk.make_visible
  rw [visAt_eq_of_get hself]
  rfl

theorem revealState_mono {s : GameDriver} {my mx : Int} {blk : Block}
    (hy0 : 0 ≤ my) (hx0 : 0 ≤ mx)
    (hget : pyGet2 s.game_board.board my mx = some blk) :
    ∀ y x : Int, visAt s y x = true → visAt (revealState s my mx blk) y x = true := by
  intro y x hv
  rcases pyGet2_pySet2_cases hy0 hx0 hget blk.make_visible y x with hc | ⟨hc, _⟩
  · have hc' : pyGet2 (revealState s my mx blk).game_board.board y x
        = pyGet2 s.game_board.board y x := hc
    unfold visAt at hv ⊢
    rw [hc']
    exact hv
  · have hc' : pyGet2 (revealState s my mx blk).game_board.board y x
        = some blk.make_visible := hc
    rw [visAt_eq_of_get hc']
    rfl

theorem revealState_vis_cases {s : GameDriver} {my mx : Int} {blk : Block}
    (hy0 : 0 ≤ my) (hx0 : 0 ≤ mx)
    (hget : pyGet2 s.game_board.board my mx = some blk) :
    ∀ y x : Int, 0 ≤ y → 0 ≤ x → visAt (revealState s my mx blk) y x = true →
      visAt s y x = true ∨ (y = my ∧ x = mx) := by
  intro y x hy hx hv
  by_cases heq : y = my ∧ x = mx
  · exact Or.inr heq
  · left
    have hne : pyGet2 (revealState s my mx blk).game_board.board y x
        = pyGet2 s.game_board.board y x :=
      pyGet2_pySet2_ne hy0 hx0 hget blk.make_visible hy hx heq
    unfold visAt at hv ⊢
    rw [hne] at hv
    exact hv

theorem inBq_parts {s : GameDriver} {y x : Int} (h : inBq s (y, x) = true) :
    0 ≤ y ∧ y ≤ s.game_board.height ∧ 0 ≤ x ∧ x ≤ s.game_board.width := by
  unfold inBq Board.is_in_valid_height_range Board.is_in_valid_width_range at h
  simp at h
  refine ⟨?_, ?_, ?_, ?_⟩ <;> omega

theorem do_move_run : ∀ (fuel : Nat) (s : GameDriver) (my mx : Int),
    wfS s → inBq s (my, mx) = true → visAt s my mx = false → invCount s ≤ fuel →
    ∃ r s', do_move fuel s my mx = .ok r s' ∧ MoveRun s my mx r s' := by
  intro fuel
  induction fuel with
  | zero =>
    intro s my mx hwf hin hinv hfuel
    exfalso
    have hA : s.game_board.is_in_valid_height_range my = true :=
      (Bool.and_eq_true .. |>.mp hin).1
    have hB : s.game_board.is_in_valid_width_range mx = true :=
      (Bool.and_eq_true .. |>.mp hin).2
    obtain ⟨blk, hget⟩ := wf_guard_get hwf hA hB
    have hbv : blk.is_invisible = true := invisible_of_visAt_false hget hinv
    have hpos := gridInv_pos hget hbv
    rw [invCount_eq_gridInv] at hfuel
    omega
  | succ fuel ih =>
    intro s my mx hwf hin hinv hfuel
    have hA : s.game_board.is_in_valid_height_range my = true :=
      (Bool.and_eq_true .. |>.mp hin).1
    have hB : s.game_board.is_in_valid_width_range mx = true :=
      (Bool.and_eq_true .. |>.mp hin).2
    have hy0 : 0 ≤ my := (guard_height hA).1
    have hx0 : 0 ≤ mx := (guard_width hB).1
    obtain ⟨blk, hget⟩ := wf_guard_get hwf hA hB
    have hbv : blk.is_invisible = true := invisible_of_visAt_false hget hinv
    have static1 : SameStatic s (revealState s my mx blk) := revealState_static hy0 hx0 hget
    have wf1 : wfS (revealState s my mx blk) := revealState_wf hwf
    have inv1 : invCount (revealState s my mx blk) + 1 = invCount s :=
      revealState_invCount hy0 hx0 hget hbv
    have hU : (revealState s my mx blk).unseen_blocks = s.unseen_blocks - 1 :=
      revealState_unseen s my mx blk
    have mono1 := revealState_mono hy0 hx0 hget
    have target1 : visAt (revealState s my mx blk) my mx = true :=
      revealState_target hy0 hx0 hget
    have s1vis := revealState_vis_cases hy0 hx0 hget
    cases hm : blk.is_mine
    · -- not a mine: branch on the near-bomb count
      have hnb1 : (revealState s my mx blk).game_board.get_block_near_bombs my mx
          = some (windowMineCount s.game_board my mx) := by
        rw [static1.nearBombs]
        exact get_block_near_bombs_eq hwf my mx
      by_cases hk : 0 < windowMineCount s.game_board my mx
      · -- positive count: only the target is revealed
        refine ⟨.ALL_OK, revealState s my mx blk,
          do_move_pos hy0 hx0 hget hm hnb1 hk, ?_⟩
        refine ⟨static1, wf1, mono1, target1, ?_, ?_, by omega, by omega, ?_⟩
        · intro y x hinB hv
          obtain ⟨hy, _, hx, _⟩ := inBq_parts hinB
          rcases s1vis y x hy hx hv with h' | ⟨rfl, rfl⟩
          · exact Or.inl h'
          · exact Or.inr .base
        · intro y x hinB hv0 hv1 hnb q hq hqin
          obtain ⟨hy, _, hx, _⟩ := inBq_parts hinB
          rcases s1vis y x hy hx hv1 with h' | ⟨rfl, rfl⟩
          · exact absurd h' (by rw [hv0]; simp)
          · exfalso
            rw [get_block_near_bombs_eq hwf] at hnb
            simp only [Option.some.injEq] at hnb
            omega
        · rw [mineAt_eq_of_get hget, hm]
          simp
      · -- zero count: the cascade runs
        have hk0 : windowMineCount s.game_board my mx = 0 := by omega
        have hz : s.game_board.get_block_near_bombs my mx = some 0 := by
          rw [get_block_near_bombs_eq hwf, hk0]
        have hnb0 : (revealState s my mx blk).game_board.get_block_near_bombs my mx
            = some 0 := by rw [hnb1, hk0]
        have hF1 : invCount (revealState s my mx blk) ≤ fuel := by omega
        obtain ⟨s2, hceq, crun⟩ :=
          cascadeGo_spec (do_move fuel) fuel ih (nbhd my mx) (revealState s my mx blk) wf1 hF1
        refine ⟨.ALL_OK, s2, ?_, ?_⟩
        · rw [do_move_zero hy0 hx0 hget hm hnb0]
          exact hceq
        refine ⟨static1.trans crun.static, crun.wf,
          fun y x h => crun.mono y x (mono1 y x h),
          crun.mono my mx target1, ?_, ?_, ?_, ?_, ?_⟩
        · -- soundness
          intro y x hinB hv
          have hinB1 : inBq (revealState s my mx blk) (y, x) = true := by
            rw [inBq_same static1]
            exact hinB
          rcases crun.sound y x hinB1 hv with h | ⟨q, hq, hqin1, hqvis1, hreach1⟩
          · obtain ⟨hy, _, hx, _⟩ := inBq_parts hinB
            rcases s1vis y x hy hx h with h' | ⟨rfl, rfl⟩
            · exact Or.inl h'
            · exact Or.inr .base
          · right
            have hreach_s : reach s q (y, x) := reach_antitone static1 mono1 hreach1
            have hqin : inBq s q = true := by
              rw [← inBq_same static1]
              exact hqin1
            have hqvis : visAt s q.1 q.2 = false := by
              cases hv' : visAt s q.1 q.2
              · rfl
              · rw [mono1 q.1 q.2 hv'] at hqvis1
                exact absurd hqvis1 (by simp)
            exact reach_prepend hz hq (by rw [← inBq_eq]; exact hqin) hqvis hreach_s
        · -- newly revealed zero cells have their window revealed
          intro y x hinB hv0 hv2 hnb q hq hqin
          by_cases hv1 : visAt (revealState s my mx blk) y x = true
          · obtain ⟨hy, _, hx, _⟩ := inBq_parts hinB
            rcases s1vis y x hy hx hv1 with h' | ⟨rfl, rfl⟩
            · exact absurd h' (by rw [hv0]; simp)
            · exact crun.covered q hq (by rw [inBq_same static1]; exact hqin)
          · have hv1f : visAt (revealState s my mx blk) y x = false := by
              cases h : visAt (revealState s my mx blk) y x
              · rfl
              · exact absurd h hv1
            have hinB1 : inBq (revealState s my mx blk) (y, x) = true := by
              rw [inBq_same static1]
              exact hinB
            have hnb1' : (revealState s my mx blk).game_board.get_block_near_bombs y x
                = some 0 := by
              rw [static1.nearBombs]
              exact hnb
            exact crun.nzc y x hinB1 hv1f hv2 hnb1' q hq
              (by rw [inBq_same static1]; exact hqin)
        · have ha := crun.account
          have hl := crun.le
          omega
        · have hl := crun.le
          omega
        · rw [mineAt_eq_of_get hget, hm]
          simp
    · -- a mine: reveal it and stop
      refine ⟨.FOUND_MINE, revealState s my mx blk, do_move_mine hy0 hx0 hget hm, ?_⟩
      refine ⟨static1, wf1, mono1, target1, ?_, ?_, by omega, by omega, ?_⟩
      · intro y x hinB hv
        obtain ⟨hy, _, hx, _⟩ := inBq_parts hinB
        rcases s1vis y x hy hx hv with h' | ⟨rfl, rfl⟩
        · exact Or.inl h'
        · exact Or.inr .base
      · intro y x hinB hv0 hv1 hnb q hq hqin
        obtain ⟨hy, _, hx, _⟩ := inBq_parts hinB
        rcases s1vis y x hy hx hv1 with h' | ⟨rfl, rfl⟩
        · exact absurd h' (by rw [hv0]; simp)
        · exfalso
          have hnm := zero_center_not_mine hwf (by rw [← inBq_eq]; exact hinB) hnb
          rw [← mineAt_eq_mineAtB, mineAt_eq_of_get hget, hm] at hnm
          exact absurd hnm (by simp)
      · rw [mineAt_eq_of_get hget, hm]
        simp

/-! ## Further supporting lemmas -/

theorem set_get_same {α : Type} :
    ∀ (l : List α) (j : Nat) (a : α), l.get? j = some a → l.set j a = l := by
  intro l
  induction l with
  | nil => intro j a h; simp at h
  | cons hd tl ih =>
    intro j a h
    cases j with
    | zero =>
      simp only [List.get?] at h
      cases h
      rfl
    | succ j =>
      simp only [List.get?] at h
      simp only [List.set]
      rw [ih j a h]

theorem pySet_get_same {α : Type} {l : List α} {i : Int} {a : α}
    (h : pyGet l i = some a) : pySet l i a = l := by
  unfold pyGet at h
  unfold pySet
  cases hr : pyResolve l.length i with
  | none => rfl
  | some j =>
    rw [hr] at h
    exact set_get_same l j a h

theorem pySet2_get_same {g : Grid} {y x : Int} {blk : Block}
    (h : pyGet2 g y x = some blk) : pySet2 g y x blk = g := by
  unfold pyGet2 at h
  unfold pySet2
  cases hg : pyGet g y with
  | none => rfl
  | some row =>
    rw [hg] at h
    simp only [Option.some_bind] at h
    show pySet g y (pySet row x blk) = g
    rw [pySet_get_same h]
    exact pySet_get_same hg

theorem pyGet2_mem {α : Type} {g : List (List α)} {y x : Int} {a : α}
    (h : pyGet2 g y x = some a) : ∃ row ∈ g, a ∈ row := by
  unfold pyGet2 at h
  cases hg : pyGet g y with
  | none => rw [hg] at h; simp at h
  | some row =>
    rw [hg] at h
    simp only [Option.some_bind] at h
    exact ⟨row, pyGet_mem hg, pyGet_mem h⟩

theorem closedZero_of_all_invisible {s : GameDriver}
    (h : ∀ row ∈ s.game_board.board, ∀ blk ∈ row, blk.visible = false) :
    closedZero s := by
  intro y x _ hv _ q _ _
  exfalso
  unfold visAt at hv
  cases hg : pyGet2 s.game_board.board y x with
  | none =>
    rw [hg] at hv
    exact absurd hv (by simp)
  | some blk =>
    rw [hg] at hv
    obtain ⟨row, hrow, hblk⟩ := pyGet2_mem hg
    have hf := h row hrow blk hblk
    have hv' : blk.is_visible = true := hv
    unfold Block.is_visible at hv'
    rw [hf] at hv'
    exact absurd hv' (by simp)

theorem zregion_parts {s : GameDriver} {a : Int × Int} :
    ∀ q, zregion s a q → q = a ∨ (s.game_board.inRange q = true ∧
      s.game_board.get_block_near_bombs q.1 q.2 = some 0) := by
  intro q h
  cases h with
  | base => exact Or.inl rfl
  | step hp hmem hr hz => exact Or.inr ⟨hr, hz⟩

theorem reach_sub_regionBorder {s : GameDriver} {a : Int × Int} :
    ∀ q, reach s a q → regionBorder s a q := by
  intro q h
  induction h with
  | base => exact Or.inl .base
  | step hp hz hmem hr hinv ih =>
    rename_i p q'
    rcases ih with hreg | hbord
    · by_cases hq : s.game_board.get_block_near_bombs q'.1 q'.2 = some 0
      · exact Or.inl (.step hreg hmem hr hq)
      · exact Or.inr ⟨hr, hq, p, hreg, hmem⟩
    · exact absurd hz hbord.2.1

theorem cascadeGo_safe (rec : GameDriver → Int → Int → DmRes)
    (hrec : ∀ s my mx, wfS s → inBq s (my, mx) = true →
      rec s my mx ≠ .oob ∧
        ∀ r s', rec s my mx = .ok r s' → wfS s' ∧ SameStatic s s' ∧
          countMines s'.game_board.board = countMines s.game_board.board) :
    ∀ (L : List (Int × Int)) (s : GameDriver), wfS s →
      cascadeGo rec L s ≠ .oob ∧
        ∀ r s', cascadeGo rec L s = .ok r s' → wfS s' ∧ SameStatic s s' ∧
          countMines s'.game_board.board = countMines s.game_board.board := by
  intro L
  induction L with
  | nil =>
    intro s hwf
    have h0 : cascadeGo rec [] s = .ok .ALL_OK s := rfl
    refine ⟨by rw [h0]; simp, ?_⟩
    intro r s' h
    rw [h0] at h
    injection h with h1 h2
    subst h2
    exact ⟨hwf, SameStatic.refl s, rfl⟩
  | cons p rest ih =>
    intro s hwf
    by_cases hin : inBq s p = true
    · have hA : s.game_board.is_in_valid_height_range p.1 = true :=
        (Bool.and_eq_true .. |>.mp hin).1
      have hB : s.game_board.is_in_valid_width_range p.2 = true :=
        (Bool.and_eq_true .. |>.mp hin).2
      obtain ⟨blk, hget⟩ := wf_guard_get hwf hA hB
      by_cases hbv : blk.is_invisible = true
      · have heq := @cascadeGo_rec_step rec p rest s blk hin hget hbv
        obtain ⟨hnoob, hok⟩ := hrec s p.1 p.2 hwf hin
        cases hres : rec s p.1 p.2 with
        | ok r0 s0 =>
          obtain ⟨hwf0, hst0, hcm0⟩ := hok r0 s0 hres
          obtain ⟨hnoob', hok'⟩ := ih s0 hwf0
          constructor
          · rw [heq, hres]
            exact hnoob'
          · intro r s' h
            rw [heq, hres] at h
            obtain ⟨hwf', hst', hcm'⟩ := hok' r s' h
            exact ⟨hwf', hst0.trans hst', by rw [hcm', hcm0]⟩
        | oob => exact absurd hres hnoob
        | fuelOut =>
          constructor
          · rw [heq, hres]
            simp
          · intro r s' h
            rw [heq, hres] at h
            exact absurd h (by simp)
      · have hbv' : blk.is_invisible = false := by
          cases h : blk.is_invisible
          · rfl
          · exact absurd h hbv
        have heq := @cascadeGo_vis_skip rec p rest s blk hin hget hbv'
        obtain ⟨hnoob', hok'⟩ := ih s hwf
        exact ⟨by rw [heq]; exact hnoob', by rw [heq]; exact hok'⟩
    · have hin' : inBq s p = false := by
        cases h : inBq s p
        · rfl
        · exact absurd h hin
      have heq := @cascadeGo_guard_skip rec p rest s hin'
      obtain ⟨hnoob', hok'⟩ := ih s hwf
      exact ⟨by rw [heq]; exact hnoob', by rw [heq]; exact hok'⟩

theorem do_move_safe : ∀ (fuel : Nat) (s : GameDriver) (my mx : Int),
    wfS s → inBq s (my, mx) = true →
    do_move fuel s my mx ≠ .oob ∧
      ∀ r s', do_move fuel s my mx = .ok r s' → wfS s' ∧ SameStatic s s' ∧
        countMines s'.game_board.board = countMines s.game_board.board := by
  intro fuel
  induction fuel with
  | zero =>
    intro s my mx hwf hin
    have h0 : do_move 0 s my mx = .fuelOut := rfl
    refine ⟨by rw [h0]; simp, ?_⟩
    intro r s' h
    rw [h0] at h
    exact absurd h (by simp)
  | succ fuel ih =>
    intro s my mx hwf hin
    have hA : s.game_board.is_in_valid_height_range my = true :=
      (Bool.and_eq_true .. |>.mp hin).1
    have hB : s.game_board.is_in_valid_width_range mx = true :=
      (Bool.and_eq_true .. |>.mp hin).2
    have hy0 : 0 ≤ my := (guard_height hA).1
    have hx0 : 0 ≤ mx := (guard_width hB).1
    obtain ⟨blk, hget⟩ := wf_guard_get hwf hA hB
    have static1 : SameStatic s (revealState s my mx blk) := revealState_static hy0 hx0 hget
    have wf1 : wfS (revealState s my mx blk) := revealState_wf hwf
    have hcm1 : countMines (revealState s my mx blk).game_board.board
        = countMines s.game_board.board :=
      countMines_pySet2_same blk.make_visible hy0 hx0 hget rfl
    cases hm : blk.is_mine
    · have hnb1 : (revealState s my mx blk).game_board.get_block_near_bombs my mx
          = some (windowMineCount s.game_board my mx) := by
        rw [static1.nearBombs]
        exact get_block_near_bombs_eq hwf my mx
      by_cases hk : 0 < windowMineCount s.game_board my mx
      · have heq := @do_move_pos fuel s my mx blk _ hy0 hx0 hget hm hnb1 hk
        refine ⟨by rw [heq]; simp, ?_⟩
        intro r s' h
        rw [heq] at h
        injection h with h1 h2
        subst h2
        exact ⟨wf1, static1, hcm1⟩
      · have hk0 : windowMineCount s.game_board my mx = 0 := by omega
        have hnb0 : (revealState s my mx blk).game_board.get_block_near_bombs my mx
            = some 0 := by rw [hnb1, hk0]
        have heq := @do_move_zero fuel s my mx blk hy0 hx0 hget hm hnb0
        obtain ⟨hnoob, hok⟩ :=
          cascadeGo_safe (do_move fuel) ih (nbhd my mx) (revealState s my mx blk) wf1
        refine ⟨by rw [heq]; exact hnoob, ?_⟩
        intro r s' h
        rw [heq] at h
        obtain ⟨hwf', hst', hcm'⟩ := hok r s' h
        exact ⟨hwf', static1.trans hst', by rw [hcm', hcm1]⟩
    · have heq := @do_move_mine fuel s my mx blk hy0 hx0 hget hm
      refine ⟨by rw [heq]; simp, ?_⟩
      intro r s' h
      rw [heq] at h
      injection h with h1 h2
      subst h2
      exact ⟨wf1, static1, hcm1⟩

theorem filter_mine_replicate (w : Nat) :
    (List.replicate w { type_ := BlockType.NORMAL, visible := false } : List Block).filter
      Block.is_mine = [] := by
  induction w with
  | zero => rfl
  | succ w ih =>
    rw [List.replicate_succ, List.filter_cons]
    rw [if_neg (by simp [Block.is_mine])]
    exact ih

theorem countMines_replicate (h w : Nat) :
    countMines (List.replicate h
      (List.replicate w { type_ := BlockType.NORMAL, visible := false })) = 0 := by
  induction h with
  | zero => rfl
  | succ h ih =>
    unfold countMines at ih ⊢
    rw [List.replicate_succ, List.map_cons, List.sum_cons, filter_mine_replicate]
    simpa using ih

theorem placeBombs_step_collision {board_width board_height m : Int}
    {stream : Nat → Nat × Nat} {fuel idx n : Nat} {g : Grid} {blk : Block}
    (hc : (n : Int) < m) (hr : ¬(board_width - 1 < 0 || board_height - 1 < 0) = true)
    (hget : pyGet2 g (((stream idx).2 % board_height.toNat : Nat) : Int)
      (((stream idx).1 % board_width.toNat : Nat) : Int) = some blk)
    (hmb : blk.is_mine = true) :
    placeBombs board_width board_height m stream (fuel + 1) idx n g =
      placeBombs board_width board_height m stream fuel (idx + 1) n g := by
  conv_lhs => rw [placeBombs]
  rw [if_pos hc, if_neg hr, hget]
  show (if blk.is_mine = true then _ else _) = _
  rw [if_pos hmb]

theorem placeBombs_step_place {board_width board_height m : Int}
    {stream : Nat → Nat × Nat} {fuel idx n : Nat} {g : Grid} {blk : Block}
    (hc : (n : Int) < m) (hr : ¬(board_width - 1 < 0 || board_height - 1 < 0) = true)
    (hget : pyGet2 g (((stream idx).2 % board_height.toNat : Nat) : Int)
      (((stream idx).1 % board_width.toNat : Nat) : Int) = some blk)
    (hmb : blk.is_mine = false) :
    placeBombs board_width board_height m stream (fuel + 1) idx n g =
      placeBombs board_width board_height m stream fuel (idx + 1) (n + 1)
        (pySet2 g (((stream idx).2 % board_height.toNat : Nat) : Int)
          (((stream idx).1 % board_width.toNat : Nat) : Int)
          { type_ := BlockType.MINE, visible := false }) := by
  conv_lhs => rw [placeBombs]
  rw [if_pos hc, if_neg hr, hget]
  show (if blk.is_mine = true then _ else _) = _
  rw [if_neg (by rw [hmb]; simp)]

theorem placeBombs_count {board_width board_height m : Int} {stream : Nat → Nat × Nat}
    (hw : 0 < board_width) (hh : 0 < board_height) :
    ∀ (fuel idx n : Nat) (g res : Grid),
      g.length = board_height.toNat → (∀ row ∈ g, row.length = board_width.toNat) →
      countMines g = n → (n : Int) ≤ m →
      placeBombs board_width board_height m stream fuel idx n g = .ok res →
      countMines res = m.toNat ∧ res.length = board_height.toNat ∧
        ∀ row ∈ res, row.length = board_width.toNat := by
  intro fuel
  induction fuel with
  | zero =>
    intro idx n g res hlen hrow hcnt hnm hres
    unfold placeBombs at hres
    by_cases hc : (n : Int) < m
    · rw [if_pos hc] at hres
      exact absurd hres (by simp)
    · rw [if_neg hc] at hres
      injection hres with h
      subst h
      refine ⟨by omega, hlen, hrow⟩
  | succ fuel ihf =>
    intro idx n g res hlen hrow hcnt hnm hres
    by_cases hc : (n : Int) < m
    · have hr : ¬(board_width - 1 < 0 || board_height - 1 < 0) = true := by
        simp only [Bool.or_eq_true, decide_eq_true_eq]
        omega
      have hym : (stream idx).2 % board_height.toNat < board_height.toNat :=
        Nat.mod_lt _ (by omega)
      have hxm : (stream idx).1 % board_width.toNat < board_width.toNat :=
        Nat.mod_lt _ (by omega)
      obtain ⟨row, hrowg⟩ : ∃ row,
          g.get? ((stream idx).2 % board_height.toNat) = some row := by
        rw [List.get?_eq_getElem?]
        exact ⟨_, List.getElem?_eq_getElem (by rw [hlen]; exact hym)⟩
      have hrl : row.length = board_width.toNat := hrow row (List.get?_mem hrowg)
      obtain ⟨blk, hblk⟩ : ∃ blk,
          row.get? ((stream idx).1 % board_width.toNat) = some blk := by
        rw [List.get?_eq_getElem?]
        exact ⟨_, List.getElem?_eq_getElem (by rw [hrl]; exact hxm)⟩
      have hget : pyGet2 g (((stream idx).2 % board_height.toNat : Nat) : Int)
          (((stream idx).1 % board_width.toNat : Nat) : Int) = some blk := by
        rw [pyGet2_nonneg g (by omega) (by omega), Int.toNat_natCast, Int.toNat_natCast,
          hrowg]
        simpa using hblk
      cases hmb : blk.is_mine
      · rw [placeBombs_step_place hc hr hget hmb] at hres
        have hy0 : (0 : Int) ≤ (((stream idx).2 % board_height.toNat : Nat) : Int) := by
          omega
        have hx0 : (0 : Int) ≤ (((stream idx).1 % board_width.toNat : Nat) : Int) := by
          omega
        have hcnt' : countMines (pySet2 g
            (((stream idx).2 % board_height.toNat : Nat) : Int)
            (((stream idx).1 % board_width.toNat : Nat) : Int)
            { type_ := BlockType.MINE, visible := false }) = n + 1 := by
          rw [countMines_pySet2_mine hy0 hx0 hget hmb (by decide), hcnt]
        refine ihf (idx + 1) (n + 1) _ res ?_ ?_ hcnt' (by omega) hres
        · rw [pySet2_length]
          exact hlen
        · intro row' hmem
          obtain ⟨row0, hrow0, hlen0⟩ := pySet2_row_mem row' hmem
          rw [hlen0]
          exact hrow row0 hrow0
      · rw [placeBombs_step_collision hc hr hget hmb] at hres
        exact ihf (idx + 1) n g res hlen hrow hcnt (by omega) hres
    · conv_lhs at hres => rw [placeBombs]
      rw [if_neg hc] at hres
      injection hres with h
      subst h
      refine ⟨by omega, hlen, hrow⟩

theorem make_board_count {board_width board_height m : Int} {stream : Nat → Nat × Nat}
    {fuel : Nat} {g : Grid}
    (hw : 0 < board_width) (hh : 0 < board_height) (hm0 : 0 ≤ m)
    (hres : Board.make_board board_width board_height m stream fuel = .ok g) :
    countMines g = m.toNat ∧ g.length = board_height.toNat ∧
      ∀ row ∈ g, row.length = board_width.toNat := by
  unfold Board.make_board at hres
  refine placeBombs_count hw hh fuel 0 0 _ g ?_ ?_ ?_ (by omega) hres
  · simp
  · intro row hrow
    rw [List.eq_of_mem_replicate hrow]
    simp
  · exact countMines_replicate _ _

theorem make_board_nonpos (board_width board_height m : Int) (stream : Nat → Nat × Nat)
    (fuel : Nat) (hm : m ≤ 0) :
    Board.make_board board_width board_height m stream fuel =
      .ok (List.replicate board_height.toNat
        (List.replicate board_width.toNat
          { type_ := BlockType.NORMAL, visible := false })) := by
  unfold Board.make_board
  cases fuel with
  | zero =>
    unfold placeBombs
    rw [if_neg (by omega)]
  | succ fuel =>
    unfold placeBombs
    rw [if_neg (by omega)]

/-! ## Claim theorems -/

/-- A fixed sample stream for concrete runs: always pick cell `(0, 0)`. -/
def cexStream : Nat → Nat × Nat := fun _ => (0, 0)

/-- The freshly constructed 2×2 game with one mine, which `cexStream`
places at `(0, 0)`. -/
def cexC1 : GameDriver :=
  { game_board :=
      { width := 1, height := 1, number_of_mines := 1, unseen_blocks := 3,
        board := [[{ type_ := BlockType.MINE, visible := false },
                   { type_ := BlockType.NORMAL, visible := false }],
                  [{ type_ := BlockType.NORMAL, visible := false },
                   { type_ := BlockType.NORMAL, visible := false }]] },
    unseen_blocks := 3 }

/-- The state after revealing the mine at `(0, 0)` of `cexC1`. -/
def cexC1' : GameDriver :=
  { game_board :=
      { width := 1, height := 1, number_of_mines := 1, unseen_blocks := 3,
        board := [[{ type_ := BlockType.MINE, visible := true },
                   { type_ := BlockType.NORMAL, visible := false }],
                  [{ type_ := BlockType.NORMAL, visible := false },
                   { type_ := BlockType.NORMAL, visible := false }]] },
    unseen_blocks := 2 }

/-- C1: on the freshly constructed 2×2 board with its mine at `(0, 0)`
(a hidden, in-bounds mine cell, `unseen_blocks = 3`), `do_move (0, 0)`
does return `FOUND_MINE` but decrements `unseen_blocks` to 2: the source
decrements the counter before testing for a mine, so revealing a mine
does change `unseen_blocks`, contradicting the claim that the counter is
decremented only for non-mine cells. -/
theorem do_move_mine_decrements_unseen :
    GameDriver.init 2 2 1 cexStream 1 = some cexC1 ∧
    mineAt cexC1 0 0 = true ∧ visAt cexC1 0 0 = false ∧
    inBq cexC1 (0, 0) = true ∧ cexC1.unseen_blocks = 3 ∧
    do_move 1 cexC1 0 0 = .ok .FOUND_MINE cexC1' ∧
    cexC1'.unseen_blocks = 2 := by decide

/-- The freshly constructed 2×1 game with one mine at `(0, 0)`. -/
def cexC3 : GameDriver :=
  { game_board :=
      { width := 1, height := 0, number_of_mines := 1, unseen_blocks := 1,
        board := [[{ type_ := BlockType.MINE, visible := false },
                   { type_ := BlockType.NORMAL, visible := false }]] },
    unseen_blocks := 1 }

/-- The state of `cexC3` after the valid move `(0, 0)` onto the mine. -/
def cexC3' : GameDriver :=
  { game_board :=
      { width := 1, height := 0, number_of_mines := 1, unseen_blocks := 1,
        board := [[{ type_ := BlockType.MINE, visible := true },
                   { type_ := BlockType.NORMAL, visible := false }]] },
    unseen_blocks := 0 }

/-- C3: a single valid move (the hidden in-bounds mine at `(0, 0)` of a
fresh 2×1 one-mine game) reaches a state in which `is_game_over` returns
`true` although the non-mine cell at `(0, 1)` is still unrevealed: the
unconditional decrement of `unseen_blocks` in `do_move` breaks the
claimed equivalence between `is_game_over` and "every non-mine cell
revealed". -/
theorem is_game_over_true_with_hidden_safe_cell :
    GameDriver.init 2 1 1 cexStream 1 = some cexC3 ∧
    GameDriver.is_valid_move cexC3 0 0 = true ∧
    do_move 1 cexC3 0 0 = .ok .FOUND_MINE cexC3' ∧
    Reachable cexC3 cexC3' ∧
    cexC3'.is_game_over = true ∧
    mineAt cexC3' 0 1 = false ∧ visAt cexC3' 0 1 = false := by
  refine ⟨by decide, by decide, by decide, ?_, by decide, by decide, by decide⟩
  exact @Reachable.step cexC3 cexC3 cexC3' 1 0 0 MoveResult.FOUND_MINE
    (Reachable.refl cexC3) (by decide) (by decide)

/-- A 1×1 board holding a single hidden mine. -/
def mineOnlyBoard : Board :=
  { width := 0, height := 0, number_of_mines := 1, unseen_blocks := 0,
    board := [[{ type_ := BlockType.MINE, visible := false }]] }

/-- C4 counterexample: on a 1×1 board whose only cell is a mine,
`get_block_near_bombs (0, 0)` returns 1 although the cell has no
neighbors at all — the source's 3×3 loop does not exclude the center
cell, so the function is not the count of mines among the up-to-8
neighbors. -/
theorem get_block_near_bombs_center_cex :
    mineOnlyBoard.get_block_near_bombs 0 0 = some 1 ∧
    specAdjCount mineOnlyBoard 0 0 = 0 ∧
    mineOnlyBoard.get_block_near_bombs 0 0
      ≠ some (specAdjCount mineOnlyBoard 0 0) := by decide

/-- C4 (amended): for every well-formed board and in-bounds `(x, y)`,
`get_block_near_bombs` counts the mines in the in-bounds 3×3 window
around `(x, y)` including the center: it equals the up-to-8-neighbor
mine count plus one exactly when the center cell itself is a mine, and
for every non-mine cell it coincides with the claimed neighbor count. -/
theorem get_block_near_bombs_window_count (b : Board) (y x : Int) (hwf : wfB b)
    (hin : b.inRange (y, x) = true) :
    b.get_block_near_bombs y x =
      some (specAdjCount b y x + (if b.mineAtB y x then 1 else 0)) ∧
      (b.mineAtB y x = false → b.get_block_near_bombs y x = some (specAdjCount b y x)) := by
  have h := get_block_near_bombs_eq hwf y x
  have hs := windowMineCount_split b y x
  constructor
  · rw [h, hs, hin]
    simp
  · intro hm
    rw [h, hs, hin, hm]
    simp

/-- C4 witness: the amended characterization evaluated on the concrete
1×1 mine board. -/
theorem get_block_near_bombs_window_count_witness :
    wfB mineOnlyBoard ∧ mineOnlyBoard.inRange (0, 0) = true ∧
    (mineOnlyBoard.get_block_near_bombs 0 0 =
      some (specAdjCount mineOnlyBoard 0 0 +
        (if mineOnlyBoard.mineAtB 0 0 then 1 else 0)) ∧
      (mineOnlyBoard.mineAtB 0 0 = false →
        mineOnlyBoard.get_block_near_bombs 0 0
          = some (specAdjCount mineOnlyBoard 0 0))) :=
  ⟨by decide, by decide,
    get_block_near_bombs_window_count mineOnlyBoard 0 0 (by decide) (by decide)⟩

/-- C5 counterexample: for the configuration `(2, 2, -1)` — which has
`mineCount < 0` and so, per the claim, should fail with
`InvalidConfiguration` — construction succeeds: `make_board` returns a
mine-free 2×2 grid, and `Board.__init__` returns a board. -/
theorem make_board_negative_mines_cex :
    Board.make_board 2 2 (-1) cexStream 0 =
      .ok [[{ type_ := BlockType.NORMAL, visible := false },
            { type_ := BlockType.NORMAL, visible := false }],
           [{ type_ := BlockType.NORMAL, visible := false },
            { type_ := BlockType.NORMAL, visible := false }]] ∧
    (Board.init 2 2 (-1) cexStream 0).isSome = true := by decide

/-- C5 (amended): board construction performs no configuration
validation and never signals an `InvalidConfiguration` error; in
particular, for every `mineCount ≤ 0` — including the negative counts
the claim says are rejected — construction succeeds immediately and
returns the all-normal (mine-free) grid of the requested dimensions. -/
theorem make_board_no_validation (board_width board_height m : Int)
    (stream : Nat → Nat × Nat) (fuel : Nat) (hm : m ≤ 0) :
    Board.make_board board_width board_height m stream fuel =
      .ok (List.replicate board_height.toNat
        (List.replicate board_width.toNat
          { type_ := BlockType.NORMAL, visible := false })) ∧
    countMines (List.replicate board_height.toNat
      (List.replicate board_width.toNat
        { type_ := BlockType.NORMAL, visible := false })) = 0 :=
  ⟨make_board_nonpos _ _ _ _ _ hm, countMines_replicate _ _⟩

/-- C5 witness: the amended claim evaluated at `(2, 2, -1)`. -/
theorem make_board_no_validation_witness :
    (-1 : Int) ≤ 0 ∧
    (Board.make_board 2 2 (-1) cexStream 0 =
      .ok (List.replicate (2 : Int).toNat
        (List.replicate (2 : Int).toNat
          { type_ := BlockType.NORMAL, visible := false })) ∧
    countMines (List.replicate (2 : Int).toNat
      (List.replicate (2 : Int).toNat
        { type_ := BlockType.NORMAL, visible := false })) = 0) :=
  ⟨by decide, make_board_no_validation 2 2 (-1) cexStream 0 (by decide)⟩

/-- A 2×2 one-mine game in which the safe cell `(1, 1)` has already been
revealed. -/
def cexC6 : GameDriver :=
  { game_board :=
      { width := 1, height := 1, number_of_mines := 1, unseen_blocks := 3,
        board := [[{ type_ := BlockType.MINE, visible := false },
                   { type_ := BlockType.NORMAL, visible := false }],
                  [{ type_ := BlockType.NORMAL, visible := false },
                   { type_ := BlockType.NORMAL, visible := true }]] },
    unseen_blocks := 3 }

/-- C6 counterexample: calling `do_move` on the already-revealed cell
`(1, 1)` of `cexC6` — a move `is_valid_move` rejects — does not fail:
it silently returns `ALL_OK` and decrements `unseen_blocks` again.
The source contains no assertion of the precondition. -/
theorem do_move_no_precondition_check_cex :
    GameDriver.is_valid_move cexC6 1 1 = false ∧
    do_move 1 cexC6 1 1 =
      .ok .ALL_OK { game_board := cexC6.game_board, unseen_blocks := 2 } := by decide

/-- C6 (amended): `do_move` performs no precondition check: called on an
in-bounds cell that is already revealed (so `validateMove` is false), a
non-mine cell with a positive near-bomb count, it raises no error and
silently mutates state — the board is unchanged but `unseen_blocks` is
decremented once more. -/
theorem do_move_on_revealed_silently_mutates (s : GameDriver) (my mx : Int) (fuel : Nat)
    {blk : Block} {k : Nat}
    (hwf : wfS s) (hin : inBq s (my, mx) = true)
    (hget : pyGet2 s.game_board.board my mx = some blk)
    (hvis : blk.visible = true) (hm : blk.is_mine = false)
    (hnb : s.game_board.get_block_near_bombs my mx = some k) (hk : 0 < k) :
    GameDriver.is_valid_move s mx my = false ∧
    do_move (fuel + 1) s my mx =
      .ok .ALL_OK { game_board := s.game_board, unseen_blocks := s.unseen_blocks - 1 } := by
  have hA : s.game_board.is_in_valid_height_range my = true :=
    (Bool.and_eq_true .. |>.mp hin).1
  have hB : s.game_board.is_in_valid_width_range mx = true :=
    (Bool.and_eq_true .. |>.mp hin).2
  have hy0 : 0 ≤ my := (guard_height hA).1
  have hx0 : 0 ≤ mx := (guard_width hB).1
  have hmv : blk.make_visible = blk := by
    cases blk with
    | mk t v =>
      unfold Block.make_visible
      simp only at hvis
      rw [hvis]
  have hboard : pySet2 s.game_board.board my mx blk.make_visible = s.game_board.board := by
    rw [hmv]
    exact pySet2_get_same hget
  have hrs : revealState s my mx blk =
      { game_board := s.game_board, unseen_blocks := s.unseen_blocks - 1 } := by
    unfold revealState
    rw [hboard]
  constructor
  · unfold GameDriver.is_valid_move
    rw [hget]
    show (_ && blk.is_invisible) = false
    unfold Block.is_invisible
    rw [hvis]
    simp
  · have hnb1 : (revealState s my mx blk).game_board.get_block_near_bombs my mx
        = some k := by
      rw [hrs]
      exact hnb
    rw [@do_move_pos fuel s my mx blk k hy0 hx0 hget hm hnb1 hk, hrs]

/-- C6 witness: the amended statement evaluated on `cexC6` at the
already-revealed cell `(1, 1)`. -/
theorem do_move_on_revealed_silently_mutates_witness :
    wfS cexC6 ∧ inBq cexC6 (1, 1) = true ∧
    (GameDriver.is_valid_move cexC6 1 1 = false ∧
      do_move 1 cexC6 1 1 =
        .ok .ALL_OK { game_board := cexC6.game_board,
                      unseen_blocks := cexC6.unseen_blocks - 1 }) :=
  ⟨by decide, by decide,
    @do_move_on_revealed_silently_mutates cexC6 1 1 0
      { type_ := BlockType.NORMAL, visible := true } 1 (by decide) (by decide)
      (by decide) (by decide) (by decide) (by decide) (by decide)⟩

/-- C7: on every well-formed game state with at least one in-bounds
non-mine cell, `do_move` on an in-bounds unrevealed cell terminates —
fuel equal to the number of currently hidden cells (or any larger bound)
suffices — and no cell is revealed twice during the cascade: the number
of reveal operations performed, which is exactly the amount
`unseen_blocks` is decremented by, equals the number of cells that
changed from hidden to revealed, so every reveal hit a previously hidden
cell. -/
theorem do_move_terminates_no_revisit (s : GameDriver) (my mx : Int) (fuel : Nat)
    (hwf : wfS s)
    (hsafe : ∃ y x : Int, inBq s (y, x) = true ∧ mineAt s y x = false)
    (hin : inBq s (my, mx) = true) (hinv : visAt s my mx = false)
    (hfuel : invCount s ≤ fuel) :
    ∃ r s', do_move fuel s my mx = .ok r s' ∧
      (invCount s : Int) - invCount s' = s.unseen_blocks - s'.unseen_blocks ∧
      invCount s' < invCount s := by
  obtain ⟨r, s', heq, run⟩ := do_move_run fuel s my mx hwf hin hinv hfuel
  exact ⟨r, s', heq, run.account, run.dec⟩

/-- C7 witness: the property evaluated on the fresh 2×2 one-mine game. -/
theorem do_move_terminates_no_revisit_witness :
    wfS cexC1 ∧ (∃ y x : Int, inBq cexC1 (y, x) = true ∧ mineAt cexC1 y x = false) ∧
    inBq cexC1 (0, 0) = true ∧ visAt cexC1 0 0 = false ∧ invCount cexC1 ≤ 4 ∧
    (∃ r s', do_move 4 cexC1 0 0 = .ok r s' ∧
      (invCount cexC1 : Int) - invCount s' = cexC1.unseen_blocks - s'.unseen_blocks ∧
      invCount s' < invCount cexC1) :=
  ⟨by decide, ⟨0, 1, by decide, by decide⟩, by decide, by decide, by decide,
    do_move_terminates_no_revisit cexC1 0 0 4 (by decide)
      ⟨0, 1, by decide, by decide⟩ (by decide) (by decide) (by decide)⟩

/-- C10: on every well-formed game state, all grid accesses of the core
stay in bounds: `get_block_near_bombs` never hits its index-error branch
at any coordinates (its range guards protect every access), and
`do_move` started at any in-bounds position never produces an
out-of-bounds access, whatever the fuel — the embedded lookup's `oob`
branch is unreachable. -/
theorem do_move_accesses_in_bounds (s : GameDriver) (hwf : wfS s) :
    (∀ y x : Int, s.game_board.get_block_near_bombs y x
      = some (windowMineCount s.game_board y x)) ∧
    (∀ (fuel : Nat) (my mx : Int), inBq s (my, mx) = true →
      do_move fuel s my mx ≠ .oob) := by
  refine ⟨fun y x => get_block_near_bombs_eq hwf y x, ?_⟩
  intro fuel my mx hin
  exact (do_move_safe fuel s my mx hwf hin).1

/-- C10 witness: the safety property evaluated on the fresh 2×2 game. -/
theorem do_move_accesses_in_bounds_witness :
    wfS cexC1 ∧
    ((∀ y x : Int, cexC1.game_board.get_block_near_bombs y x
      = some (windowMineCount cexC1.game_board y x)) ∧
    (∀ (fuel : Nat) (my mx : Int), inBq cexC1 (my, mx) = true →
      do_move fuel cexC1 my mx ≠ .oob)) :=
  ⟨by decide, do_move_accesses_in_bounds cexC1 (by decide)⟩

theorem Reachable_preserves {s0 s' : GameDriver} (h : Reachable s0 s') (hwf0 : wfS s0) :
    wfS s' ∧ SameStatic s0 s' ∧
      countMines s'.game_board.board = countMines s0.game_board.board := by
  induction h with
  | refl => exact ⟨hwf0, SameStatic.refl _, rfl⟩
  | step hprev hin heq ihr =>
    obtain ⟨hwf1, hst1, hcm1⟩ := ihr
    obtain ⟨hwf2, hst2, hcm2⟩ := (do_move_safe _ _ _ _ hwf1 hin).2 _ _ heq
    exact ⟨hwf2, hst1.trans hst2, by rw [hcm2, hcm1]⟩

/-- C8: for every valid configuration, a successful construction yields
a board with exactly `mineCount` mine cells, and the mine map — hence
the mine count — is unchanged by `make_visible` and by any sequence of
completed `do_move` calls on validated coordinates. -/
theorem mine_count_exact_and_stable (board_width board_height m : Int)
    (stream : Nat → Nat × Nat) (fuel : Nat) (s0 s' : GameDriver)
    (hw : 0 < board_width) (hh : 0 < board_height) (hm0 : 0 ≤ m)
    (hmlt : m < board_width * board_height)
    (hinit : GameDriver.init board_width board_height m stream fuel = some s0)
    (hreach : Reachable s0 s') :
    countMines s'.game_board.board = m.toNat ∧
      (∀ y x : Int, (pyGet2 s'.game_board.board y x).map Block.is_mine
        = (pyGet2 s0.game_board.board y x).map Block.is_mine) ∧
      (∀ blk : Block, blk.make_visible.is_mine = blk.is_mine) := by
  unfold GameDriver.init Board.init at hinit
  cases hmk : Board.make_board board_width board_height m stream fuel with
  | ok g =>
    rw [hmk] at hinit
    simp only [Option.map_some', Option.some.injEq] at hinit
    obtain ⟨hcm, hlen, hrows⟩ := make_board_count hw hh hm0 hmk
    have hwf0 : wfS s0 := by
      rw [← hinit]
      constructor
      · show g.length = (board_height - 1 + 1).toNat
        rw [hlen]
        congr 1
        omega
      · intro row hrow
        show row.length = (board_width - 1 + 1).toNat
        rw [hrows row hrow]
        congr 1
        omega
    have hb0 : s0.game_board.board = g := by rw [← hinit]
    obtain ⟨hwf', hst', hcm'⟩ := Reachable_preserves hreach hwf0
    refine ⟨?_, hst'.mines, fun blk => rfl⟩
    rw [hcm', hb0, hcm]
  | raised =>
    rw [hmk] at hinit
    exact absurd hinit (by simp)
  | outOfFuel =>
    rw [hmk] at hinit
    exact absurd hinit (by simp)

/-- C8 witness: the mine-count properties evaluated at the concrete
configuration `(2, 2, 1)` with the constant sample stream, after zero
moves. -/
theorem mine_count_exact_and_stable_witness :
    (0 : Int) < 2 ∧ (0 : Int) ≤ 1 ∧ (1 : Int) < 2 * 2 ∧
    GameDriver.init 2 2 1 cexStream 1 = some cexC1 ∧
    (countMines cexC1.game_board.board = (1 : Int).toNat ∧
      (∀ y x : Int, (pyGet2 cexC1.game_board.board y x).map Block.is_mine
        = (pyGet2 cexC1.game_board.board y x).map Block.is_mine) ∧
      (∀ blk : Block, blk.make_visible.is_mine = blk.is_mine)) :=
  ⟨by decide, by decide, by decide, by decide,
    mine_count_exact_and_stable 2 2 1 cexStream 1 cexC1 cexC1 (by decide) (by decide)
      (by decide) (by decide) (by decide) (Reachable.refl cexC1)⟩

/-- C9: the renderer maps every hidden cell to the fixed
`UNKNOWN_BLOCK` character: on any two boards, cells at the same
coordinates that are both hidden produce identical representations
regardless of their mine status or adjacency counts, so the rendering
leaks nothing about hidden contents. -/
theorem hidden_cells_render_unknown (b1 b2 : Board) (y x : Int) (blk1 blk2 : Block)
    (h1 : pyGet2 b1.board y x = some blk1) (h2 : pyGet2 b2.board y x = some blk2)
    (hv1 : blk1.visible = false) (hv2 : blk2.visible = false) :
    b1.get_block_repr y x = some UNKNOWN_BLOCK ∧
      b2.get_block_repr y x = b1.get_block_repr y x := by
  have e : ∀ (b : Board) (blk : Block), pyGet2 b.board y x = some blk →
      blk.visible = false → b.get_block_repr y x = some UNKNOWN_BLOCK := by
    intro b blk h hv
    unfold Board.get_block_repr Board.get_block
    rw [h]
    show (if blk.is_invisible = true then _ else _) = _
    rw [if_pos (by unfold Block.is_invisible; rw [hv]; rfl)]
  exact ⟨e b1 blk1 h1 hv1, by rw [e b1 blk1 h1 hv1, e b2 blk2 h2 hv2]⟩

/-- A 1×1 board with a hidden mine, and a 1×1 board with a hidden safe
cell. -/
def hiddenMine1 : Board :=
  { width := 0, height := 0, number_of_mines := 1, unseen_blocks := 0,
    board := [[{ type_ := BlockType.MINE, visible := false }]] }

def hiddenNormal1 : Board :=
  { width := 0, height := 0, number_of_mines := 0, unseen_blocks := 1,
    board := [[{ type_ := BlockType.NORMAL, visible := false }]] }

/-- C9 witness: the two hidden 1×1 boards — one a mine, one not —
render identically. -/
theorem hidden_cells_render_unknown_witness :
    pyGet2 hiddenMine1.board 0 0 = some { type_ := BlockType.MINE, visible := false } ∧
    pyGet2 hiddenNormal1.board 0 0 = some { type_ := BlockType.NORMAL, visible := false } ∧
    (hiddenMine1.get_block_repr 0 0 = some UNKNOWN_BLOCK ∧
      hiddenNormal1.get_block_repr 0 0 = hiddenMine1.get_block_repr 0 0) :=
  ⟨by decide, by decide,
    hidden_cells_render_unknown hiddenMine1 hiddenNormal1 0 0
      { type_ := BlockType.MINE, visible := false }
      { type_ := BlockType.NORMAL, visible := false }
      (by decide) (by decide) (by decide) (by decide)⟩

/-- A 1×3 mine-free board whose middle cell is already revealed. -/
def cexC2 : GameDriver :=
  { game_board :=
      { width := 2, height := 0, number_of_mines := 0, unseen_blocks := 3,
        board := [[{ type_ := BlockType.NORMAL, visible := false },
                   { type_ := BlockType.NORMAL, visible := true },
                   { type_ := BlockType.NORMAL, visible := false }]] },
    unseen_blocks := 2 }

/-- The state of `cexC2` after `do_move (0, 0)`. -/
def cexC2' : GameDriver :=
  { game_board :=
      { width := 2, height := 0, number_of_mines := 0, unseen_blocks := 3,
        board := [[{ type_ := BlockType.NORMAL, visible := true },
                   { type_ := BlockType.NORMAL, visible := true },
                   { type_ := BlockType.NORMAL, visible := false }]] },
    unseen_blocks := 1 }

/-- C2 counterexample: on the 1×3 mine-free board whose middle cell is
already revealed, `do_move` on the unrevealed zero-count cell `(0, 0)`
returns `ALL_OK` but leaves `(x, y) = (2, 0)` unrevealed, although that
cell belongs to the maximal connected zero-count region of the starting
cell: the cascade does not recurse through already-visible cells, so it
does not reveal the whole region on such boards. -/
theorem do_move_not_maximal_region_cex :
    cexC2.game_board.get_block_near_bombs 0 0 = some 0 ∧
    visAt cexC2 0 0 = false ∧ inBq cexC2 (0, 0) = true ∧
    do_move 5 cexC2 0 0 = .ok .ALL_OK cexC2' ∧
    zregion cexC2 (0, 0) (0, 2) ∧
    visAt cexC2' 0 2 = false := by
  refine ⟨by decide, by decide, by decide, by decide, ?_, by decide⟩
  exact zregion.step (q := (0, 2))
    (zregion.step (q := (0, 1)) zregion.base (by decide) (by decide) (by decide))
    (by decide) (by decide) (by decide)

/-- C2 (amended): on every well-formed game state in which each revealed
zero-count cell already has its whole in-bounds window revealed — true
of every freshly constructed board — `do_move` on an in-bounds
unrevealed cell with near-bomb count zero returns `ALL_OK` and reveals
exactly the maximal connected region of zero-count cells containing the
start plus the non-zero cells bordering it: afterwards a cell is
revealed iff it was revealed before or lies in the region or its border,
and no cell of the region or border is a mine, so no mine is ever
revealed by the cascade. -/
theorem do_move_flood_fill (s : GameDriver) (ay ax : Int) (fuel : Nat)
    (hwf : wfS s) (hin : inBq s (ay, ax) = true) (hinv : visAt s ay ax = false)
    (hzero : s.game_board.get_block_near_bombs ay ax = some 0)
    (hcz : closedZero s) (hfuel : invCount s ≤ fuel) :
    ∃ s', do_move fuel s ay ax = .ok .ALL_OK s' ∧
      (∀ q : Int × Int, inBq s q = true →
        (visAt s' q.1 q.2 = true ↔
          visAt s q.1 q.2 = true ∨ regionBorder s (ay, ax) q)) ∧
      (∀ q : Int × Int, regionBorder s (ay, ax) q → mineAt s q.1 q.2 = false) := by
  obtain ⟨r, s', heq, run⟩ := do_move_run fuel s ay ax hwf hin hinv hfuel
  have hnm : mineAt s ay ax = false := by
    rw [mineAt_eq_mineAtB]
    exact zero_center_not_mine hwf (by rw [← inBq_eq]; exact hin) hzero
  have hrok : r = .ALL_OK := by
    cases r
    · exfalso
      have hcon := run.res.mp rfl
      rw [hnm] at hcon
      exact absurd hcon (by simp)
    · rfl
  subst hrok
  have hzp : ∀ p, zregion s (ay, ax) p →
      s.game_board.inRange p = true ∧
        s.game_board.get_block_near_bombs p.1 p.2 = some 0 := by
    intro p hp
    rcases zregion_parts p hp with hpa | h'
    · subst hpa
      exact ⟨by rw [← inBq_eq]; exact hin, hzero⟩
    · exact h'
  have hregion_vis : ∀ q, zregion s (ay, ax) q → visAt s' q.1 q.2 = true := by
    intro q h
    induction h with
    | base => exact run.target
    | step hp hmem hr hz ih =>
      rename_i p q'
      obtain ⟨hpin, hpz⟩ := hzp p hp
      by_cases hpv : visAt s p.1 p.2 = true
      · exact run.mono q'.1 q'.2 (hcz p.1 p.2 hpin hpv hpz q' hmem hr)
      · have hpvf : visAt s p.1 p.2 = false := by
          cases hv : visAt s p.1 p.2
          · rfl
          · exact absurd hv hpv
        exact run.nzc p.1 p.2 (by rw [inBq_eq]; exact hpin) hpvf ih hpz q' hmem
          (by rw [inBq_eq]; exact hr)
  have hwindow_vis : ∀ p, zregion s (ay, ax) p → ∀ q ∈ nbhd p.1 p.2,
      s.game_board.inRange q = true → visAt s' q.1 q.2 = true := by
    intro p hp q hmem hr
    obtain ⟨hpin, hpz⟩ := hzp p hp
    by_cases hpv : visAt s p.1 p.2 = true
    · exact run.mono q.1 q.2 (hcz p.1 p.2 hpin hpv hpz q hmem hr)
    · have hpvf : visAt s p.1 p.2 = false := by
        cases hv : visAt s p.1 p.2
        · rfl
        · exact absurd hv hpv
      exact run.nzc p.1 p.2 (by rw [inBq_eq]; exact hpin) hpvf (hregion_vis p hp) hpz
        q hmem (by rw [inBq_eq]; exact hr)
  refine ⟨s', heq, ?_, ?_⟩
  · intro q hq
    constructor
    · intro hv
      rcases run.sound q.1 q.2 hq hv with h | h
      · exact Or.inl h
      · exact Or.inr (reach_sub_regionBorder _ h)
    · intro h
      rcases h with h | hreg
      · exact run.mono q.1 q.2 h
      · rcases hreg with hz' | ⟨hrq, _, p, hp, hmem⟩
        · exact hregion_vis q hz'
        · exact hwindow_vis p hp q hmem hrq
  · intro q h
    rcases h with hz' | ⟨hrq, _, p, hp, hmem⟩
    · rcases zregion_parts q hz' with hqa | ⟨hr', hz''⟩
      · subst hqa
        exact hnm
      · rw [mineAt_eq_mineAtB]
        exact zero_center_not_mine hwf hr' hz''
    · obtain ⟨_, hpz⟩ := hzp p hp
      rw [mineAt_eq_mineAtB]
      exact window_zero_no_mines hwf hpz q hmem hrq

/-- The fresh 3×3 mine-free game. -/
def cexC2w : GameDriver :=
  { game_board :=
      { width := 2, height := 2, number_of_mines := 0, unseen_blocks := 9,
        board := [[{ type_ := BlockType.NORMAL, visible := false },
                   { type_ := BlockType.NORMAL, visible := false },
                   { type_ := BlockType.NORMAL, visible := false }],
                  [{ type_ := BlockType.NORMAL, visible := false },
                   { type_ := BlockType.NORMAL, visible := false },
                   { type_ := BlockType.NORMAL, visible := false }],
                  [{ type_ := BlockType.NORMAL, visible := false },
                   { type_ := BlockType.NORMAL, visible := false },
                   { type_ := BlockType.NORMAL, visible := false }]] },
    unseen_blocks := 9 }

/-- C2 witness: the flood-fill characterization applied to the center
move of the fresh 3×3 mine-free game. -/
theorem do_move_flood_fill_witness :
    wfS cexC2w ∧ inBq cexC2w (1, 1) = true ∧ visAt cexC2w 1 1 = false ∧
    cexC2w.game_board.get_block_near_bombs 1 1 = some 0 ∧
    closedZero cexC2w ∧ invCount cexC2w ≤ 9 ∧
    (∃ s', do_move 9 cexC2w 1 1 = .ok .ALL_OK s' ∧
      (∀ q : Int × Int, inBq cexC2w q = true →
        (visAt s' q.1 q.2 = true ↔
          visAt cexC2w q.1 q.2 = true ∨ regionBorder cexC2w (1, 1) q)) ∧
      (∀ q : Int × Int, regionBorder cexC2w (1, 1) q →
        mineAt cexC2w q.1 q.2 = false)) :=
  ⟨by decide, by decide, by decide, by decide,
    closedZero_of_all_invisible (by decide), by decide,
    do_move_flood_fill cexC2w 1 1 9 (by decide) (by decide) (by decide) (by decide)
      (closedZero_of_all_invisible (by decide)) (by decide)⟩
